import Mathlib

/-!
Shallow embedding of the vkbind registry-to-header generator
(`source/vkbind_build.cpp`) and proofs about its dependency resolver,
extension reordering, enum-value computation, loader-table classification,
emitted-set bookkeeping, revision derivation and template substitution.

Strings from the C++ `std::string` are modelled as Lean `String`
(or `List Char` where positional searching matters).  Machine `int`
arithmetic is modelled with `Int` (the relevant computations stay far from
the 32-bit boundary, and signed overflow is undefined behaviour in the
source language anyway).  C++ functions whose recursion is unbounded in the
source (they can genuinely fail to terminate on cyclic registries) are
modelled with an explicit fuel parameter returning `Option`; a `some`
result corresponds exactly to a terminating run of the original code.
-/

/-! ## Registry data model (mirrors the `vkbBuild*` structs) -/

structure VkbBuildPlatform where
  name : String
  protect : String
deriving DecidableEq, Inhabited

structure VkbBuildTag where
  name : String
  author : String
  contact : String
deriving DecidableEq, Inhabited

structure VkbBuildFunctionParameter where
  typeC : String
  type : String
  nameC : String
  name : String
  arrayEnum : String
deriving DecidableEq, Inhabited

structure VkbBuildFunctionPointer where
  name : String
  returnType : String
  params : List VkbBuildFunctionParameter
deriving DecidableEq, Inhabited

structure VkbBuildType where
  type : String
  name : String
  category : String
  aliasName : String
  requires : String
  bitvalues : String
  parent : String
  structData : List VkbBuildFunctionParameter
  funcpointer : VkbBuildFunctionPointer
  verbatimValue : String
deriving DecidableEq, Inhabited

structure VkbBuildEnum where
  name : String
  aliasName : String
  value : String
  bitpos : String
deriving DecidableEq, Inhabited

structure VkbBuildEnums where
  name : String
  type : String
  enums : List VkbBuildEnum
deriving DecidableEq, Inhabited

structure VkbBuildCommand where
  returnTypeC : String
  returnType : String
  name : String
  parameters : List VkbBuildFunctionParameter
  aliasName : String
deriving DecidableEq, Inhabited

structure VkbBuildRequireType where
  name : String
deriving DecidableEq, Inhabited

structure VkbBuildRequireEnum where
  name : String
  aliasName : String
  value : String
  extendsAttr : String
  bitpos : String
  extnumber : String
  offset : String
  dir : String
deriving DecidableEq, Inhabited

structure VkbBuildRequireCommand where
  name : String
deriving DecidableEq, Inhabited

structure VkbBuildRequire where
  types : List VkbBuildRequireType
  enums : List VkbBuildRequireEnum
  commands : List VkbBuildRequireCommand
deriving DecidableEq, Inhabited

structure VkbBuildFeature where
  api : String
  name : String
  number : String
  requires : List VkbBuildRequire
deriving DecidableEq, Inhabited

structure VkbBuildExtension where
  name : String
  number : String
  type : String
  platform : String
  supported : String
  promotedto : String
  deprecatedby : String
  requires : List VkbBuildRequire
deriving DecidableEq, Inhabited

structure VkbBuild where
  platforms : List VkbBuildPlatform
  tags : List VkbBuildTag
  types : List VkbBuildType
  enums : List VkbBuildEnums
  commands : List VkbBuildCommand
  features : List VkbBuildFeature
  extensions : List VkbBuildExtension
deriving DecidableEq, Inhabited

/-! ## Character / string helpers -/

/-- C `isspace` for the characters that occur in registry text. -/
def isSpaceChar (c : Char) : Bool :=
  c == ' ' || c == '\t' || c == '\n' || c == '\x0b' || c == '\x0c' || c == '\r'

/-- `vkbLTrim`: drop leading whitespace. -/
def vkbLTrimChars (s : List Char) : List Char :=
  s.dropWhile isSpaceChar

/-- `vkbRTrim`: drop trailing whitespace. -/
def vkbRTrimChars (s : List Char) : List Char :=
  (s.reverse.dropWhile isSpaceChar).reverse

/-- `vkbTrim`. -/
def vkbTrimChars (s : List Char) : List Char :=
  vkbLTrimChars (vkbRTrimChars s)

/-- Whether `pat` matches `s` starting at its head. -/
def leadMatch : List Char → List Char → Bool
  | [], _ => true
  | _ :: _, [] => false
  | p :: ps, c :: cs => p == c && leadMatch ps cs

/-- Offset of the first occurrence of `pat` in `s` (with the convention of
`std::string::find` that the empty pattern occurs at offset 0). -/
def firstOccAux (pat : List Char) : List Char → Option Nat
  | [] => if leadMatch pat [] then some 0 else none
  | c :: cs => if leadMatch pat (c :: cs) then some 0 else (firstOccAux pat cs).map Nat.succ

/-- `std::string::find(pat, start)`: first position `≥ start` at which `pat`
occurs in `s`; `none` models `npos`. -/
def strFind (s pat : List Char) (start : Nat) : Option Nat :=
  if start ≤ s.length then (firstOccAux pat (s.drop start)).map (· + start) else none

/-- Accumulate the leading decimal digits, for `atoi`. -/
def atoiDigits (s : List Char) : Nat :=
  (s.takeWhile (fun c => c.isDigit)).foldl (fun a c => a * 10 + (c.toNat - 48)) 0

/-- C `atoi`: skip whitespace, optional sign, leading digits; 0 otherwise. -/
def atoiChars (s : List Char) : Int :=
  match s.dropWhile isSpaceChar with
  | '-' :: rest => -(atoiDigits rest : Int)
  | '+' :: rest => (atoiDigits rest : Int)
  | rest => (atoiDigits rest : Int)

/-- `atoi` on a Lean `String`. -/
def atoiStr (s : String) : Int :=
  atoiChars s.data

/-- One lowercase hexadecimal digit. -/
def hexDigit (n : Nat) : Char :=
  if n < 10 then Char.ofNat (48 + n) else Char.ofNat (87 + n)

/-- `printf "%08x"` for values below `2^32`: exactly eight lowercase hex
digits, zero padded. -/
def hex8 (n : Nat) : String :=
  String.mk ([7, 6, 5, 4, 3, 2, 1, 0].map (fun i => hexDigit (n / 16 ^ i % 16)))

/-! ## `vkbReplaceAll` (template substitution workhorse) -/

/-- The loop body of `vkbReplaceAll`, with explicit fuel.  `lastPos` is the
search cursor, `acc` the `result` string being built.  `none` means the fuel
ran out, which corresponds to a non-terminating run of the C++ loop. -/
def vkbReplaceAllAux (fuel : Nat) (s from_ to_ : List Char) (acc : List Char) (lastPos : Nat) :
    Option (List Char) :=
  match fuel with
  | 0 => none
  | fuel + 1 =>
    match strFind s from_ lastPos with
    | none => some (acc ++ s.drop lastPos)
    | some findPos =>
      vkbReplaceAllAux fuel s from_ to_ (acc ++ (s.drop lastPos).take (findPos - lastPos) ++ to_)
        (findPos + from_.length)

/-- `vkbReplaceAll` itself; `s.length + 1` rounds of fuel suffice whenever
`from_` is non-empty (proved below), and the fallback for exhausted fuel is
never reached in that case. -/
def vkbReplaceAll (s from_ to_ : List Char) : List Char :=
  (vkbReplaceAllAux (s.length + 1) s from_ to_ [] 0).getD s

/-- Modelled from the spec: the structurally recursive scanner behind
`specReplaceAll`, with a step bound (any bound of at least `s.length`
yields the same value, proved below). -/
def specReplaceAllAux (from_ to_ : List Char) : Nat → List Char → List Char
  | 0, s => s
  | n + 1, s =>
    if from_ = [] then s
    else if leadMatch from_ s then to_ ++ specReplaceAllAux from_ to_ n (s.drop from_.length)
    else
      match s with
      | [] => []
      | c :: rest => c :: specReplaceAllAux from_ to_ n rest

/-- Modelled from the spec: replace every left-to-right non-overlapping
occurrence of the non-empty `from_` in `s` by `to_`: scan left to right; on
a match emit `to_` and resume after the matched segment, otherwise copy one
character. -/
def specReplaceAll (from_ to_ s : List Char) : List Char :=
  specReplaceAllAux from_ to_ s.length s

/-! ## `vkbBuildCleanDefineValue` -/

/-- The comment-stripping loop of `vkbBuildCleanDefineValue`.  Each
iteration removes at least one character, so `s.length + 1` rounds of fuel
always suffice; the fuel-exhausted fallback returns the input unchanged. -/
def stripLineComments (fuel : Nat) (s : List Char) : List Char :=
  match fuel with
  | 0 => s
  | fuel + 1 =>
    match strFind s ['/', '/'] 0 with
    | none => s
    | some findPos =>
      let deleteEOLCharacter := findPos == 0 || s.getD (findPos - 1) ' ' == '\n'
      match strFind s ['\n'] (findPos + 2) with
      | none => stripLineComments fuel (s.take findPos)
      | some eolPos0 =>
        let eolPos :=
          if deleteEOLCharacter then eolPos0 + 1
          else if s.getD (eolPos0 - 1) ' ' == '\r' then eolPos0 - 1 else eolPos0
        stripLineComments fuel (s.take findPos ++ s.drop eolPos)

/-- `vkbBuildCleanDefineValue`: trim, join `\`-continued lines, strip `//`
line comments. -/
def vkbBuildCleanDefineValue (value : String) : String :=
  let r0 := vkbTrimChars value.data
  let r1 := vkbReplaceAll r0 ['\\', '\n'] []
  (stripLineComments (r1.length + 1) r1).asString

/-! ## Lookups -/

/-- `vkbBuildFindTypeByName`: index of the first type with this name. -/
def vkbBuildFindTypeByName (context : VkbBuild) (name : String) : Option Nat :=
  context.types.findIdx? (fun t => t.name == name)

/-- `vkbBuildFindEnumByName`. -/
def vkbBuildFindEnumByName (context : VkbBuild) (name : String) : Option Nat :=
  context.enums.findIdx? (fun e => e.name == name)

/-- `vkbBuildFindCommandByName`. -/
def vkbBuildFindCommandByName (context : VkbBuild) (name : String) : Option Nat :=
  context.commands.findIdx? (fun c => c.name == name)

/-- `vkbBuildFindExtensionByName` specialised to a plain extension list. -/
def vkbBuildFindExtensionByName (extensions : List VkbBuildExtension) (name : String) :
    Option Nat :=
  extensions.findIdx? (fun e => e.name == name)

/-- `context.types[i]` (indices produced by the lookups are in range). -/
def typeAt (context : VkbBuild) (i : Nat) : VkbBuildType :=
  context.types.getD i default

/-- `context.enums[i]`. -/
def enumsAt (context : VkbBuild) (i : Nat) : VkbBuildEnums :=
  context.enums.getD i default

/-- `context.commands[i]`. -/
def commandAt (context : VkbBuild) (i : Nat) : VkbBuildCommand :=
  context.commands.getD i default

/-! ## Dependency resolver (`vkbBuildAdd*Dependencies`) -/

/-- The two output vectors threaded through the dependency walk
(`typeIndicesOut` / `enumIndicesOut` in the C++). -/
structure DepState where
  typeIndexes : List Nat
  enumIndexes : List Nat
deriving DecidableEq, Inhabited

/-- `vkbBuildAddEnumDependencies`: push the container's index unless already
present (an unresolvable name leaves the state unchanged, like the ignored
`VKB_INVALID_ARGS` in the source). -/
def vkbBuildAddEnumDependencies (context : VkbBuild) (enumName : String) (s : DepState) :
    DepState :=
  match vkbBuildFindEnumByName context enumName with
  | none => s
  | some enumIndex =>
    if enumIndex ∈ s.enumIndexes then s
    else { s with enumIndexes := s.enumIndexes ++ [enumIndex] }

/-- The alias step of `vkbBuildAddTypeDependencies`, parametrised by the
recursive call `rec`. -/
def addTypeAliasPart (rec : String → DepState → Option DepState) (t : VkbBuildType)
    (s : DepState) : Option DepState :=
  if t.aliasName ≠ "" then rec t.aliasName s else some s

/-- The per-category middle section of `vkbBuildAddTypeDependencies`,
parametrised by the recursive call `rec`; `typeName` is the name that was
looked up (used by the struct-member self-reference guard). -/
def addTypeCategoryPart (context : VkbBuild) (rec : String → DepState → Option DepState)
    (typeName : String) (t : VkbBuildType) (s : DepState) : Option DepState :=
  if t.category = "define" ∨ t.category = "basetype" ∨ t.category = "bitmask" ∨
      t.category = "handle" ∨ t.category = "enum" then
    ((if t.type.length > 0 then rec t.type s else some s).bind fun s =>
      (if t.requires.length > 0 then rec t.requires s else some s).bind fun s =>
        if t.bitvalues.length > 0 then rec t.bitvalues s else some s)
  else if t.category = "struct" ∨ t.category = "union" then
    t.structData.foldlM
      (fun s m =>
        if m.type == typeName then some s
        else
          rec m.type
            (if m.arrayEnum.length > 0 then vkbBuildAddEnumDependencies context m.arrayEnum s
             else s))
      s
  else if t.category = "funcpointer" then
    (rec t.funcpointer.returnType s).bind fun s =>
      t.funcpointer.params.foldlM
        (fun s p =>
          rec p.type
            (if p.arrayEnum.length > 0 then vkbBuildAddEnumDependencies context p.arrayEnum s
             else s))
        s
  else if t.category = "" then
    ((if t.requires.length > 0 then rec t.requires s else some s).bind fun s =>
      if t.bitvalues.length > 0 then rec t.bitvalues s else some s)
  else some s

/-- The trailing push of `vkbBuildAddTypeDependencies`: append the base type
unless it is already in the list. -/
def addTypePushPart (typeIndex : Nat) (s : DepState) : DepState :=
  if typeIndex ∈ s.typeIndexes then s
  else { s with typeIndexes := s.typeIndexes ++ [typeIndex] }

/-- `vkbBuildAddTypeDependencies`.  The C++ recursion has no cycle guard
before the recursive calls, so it can fail to terminate on cyclic
registries; fuel makes that explicit (`none` = the original code would not
return). -/
def vkbBuildAddTypeDependencies (context : VkbBuild) :
    Nat → String → DepState → Option DepState
  | 0, _, _ => none
  | fuel + 1, typeName, s =>
    match vkbBuildFindTypeByName context typeName with
    | none => some s
    | some typeIndex =>
      let t := typeAt context typeIndex
      (addTypeAliasPart (fun n s => vkbBuildAddTypeDependencies context fuel n s) t s).bind
        fun s1 =>
          (addTypeCategoryPart context (fun n s => vkbBuildAddTypeDependencies context fuel n s)
              typeName t s1).bind
            fun s2 => some (addTypePushPart typeIndex s2)

/-- `vkbBuildAddCommandDependencies`. -/
def vkbBuildAddCommandDependencies (context : VkbBuild) (fuel : Nat) (commandName : String)
    (s : DepState) : Option DepState :=
  match vkbBuildFindCommandByName context commandName with
  | none => some s
  | some commandIndex =>
    (vkbBuildAddTypeDependencies context fuel (commandAt context commandIndex).returnType
        s).bind
      fun s =>
        (commandAt context commandIndex).parameters.foldlM
          (fun s p => vkbBuildAddTypeDependencies context fuel p.type s) s

/-- `vkbBuildCodeGenDependencies::ParseRequire`. -/
def vkbParseRequireDependencies (context : VkbBuild) (fuel : Nat) (require : VkbBuildRequire)
    (s : DepState) : Option DepState :=
  (require.types.foldlM
      (fun s rt => vkbBuildAddTypeDependencies context fuel rt.name s) s).bind
    fun s =>
      require.commands.foldlM
        (fun s rc => vkbBuildAddCommandDependencies context fuel rc.name s)
        (require.enums.foldl (fun s re => vkbBuildAddEnumDependencies context re.name s) s)

/-- `vkbBuildCodeGenDependencies::ParseFeatureDependencies` (starting from a
freshly constructed, empty dependency record). -/
def vkbParseFeatureDependencies (context : VkbBuild) (fuel : Nat) (feature : VkbBuildFeature) :
    Option DepState :=
  feature.requires.foldlM (fun s r => vkbParseRequireDependencies context fuel r s) ⟨[], []⟩

/-- `vkbBuildCodeGenDependencies::ParseExtensionDependencies`. -/
def vkbParseExtensionDependencies (context : VkbBuild) (fuel : Nat)
    (extension : VkbBuildExtension) : Option DepState :=
  extension.requires.foldlM (fun s r => vkbParseRequireDependencies context fuel r s) ⟨[], []⟩

/-! Direct dependency edges, read off from the branches of
`vkbBuildAddTypeDependencies`: the names a type entry links to. -/

/-- Type names referenced by the per-category section for entry `t` (looked
up under the name `typeName`). -/
def branchTypeDepNames (t : VkbBuildType) (typeName : String) : List String :=
  if t.category = "define" ∨ t.category = "basetype" ∨ t.category = "bitmask" ∨
      t.category = "handle" ∨ t.category = "enum" then
    (if t.type.length > 0 then [t.type] else []) ++
    (if t.requires.length > 0 then [t.requires] else []) ++
    (if t.bitvalues.length > 0 then [t.bitvalues] else [])
  else if t.category = "struct" ∨ t.category = "union" then
    (t.structData.filter (fun m => ¬(m.type == typeName))).map (fun m => m.type)
  else if t.category = "funcpointer" then
    t.funcpointer.returnType :: t.funcpointer.params.map (fun p => p.type)
  else if t.category = "" then
    (if t.requires.length > 0 then [t.requires] else []) ++
    (if t.bitvalues.length > 0 then [t.bitvalues] else [])
  else []

/-- All type names entry `t` depends on (alias target first). -/
def typeDepNames (t : VkbBuildType) (typeName : String) : List String :=
  (if t.aliasName ≠ "" then [t.aliasName] else []) ++ branchTypeDepNames t typeName

/-- Enum-container names referenced from entry `t` through `arrayEnum`
links (self-referencing struct members are skipped, as in the walker). -/
def branchEnumDepNames (t : VkbBuildType) (typeName : String) : List String :=
  if t.category = "define" ∨ t.category = "basetype" ∨ t.category = "bitmask" ∨
      t.category = "handle" ∨ t.category = "enum" then []
  else if t.category = "struct" ∨ t.category = "union" then
    ((t.structData.filter (fun m => ¬(m.type == typeName) && m.arrayEnum.length > 0)).map
      (fun m => m.arrayEnum))
  else if t.category = "funcpointer" then
    (t.funcpointer.params.filter (fun p => p.arrayEnum.length > 0)).map (fun p => p.arrayEnum)
  else []

/-- Resolvable direct type dependencies of the entry at index `i`, as
indices into `context.types`. -/
def typeDepIdxs (context : VkbBuild) (i : Nat) : List Nat :=
  (typeDepNames (typeAt context i) (typeAt context i).name).filterMap
    (vkbBuildFindTypeByName context)

/-- Resolvable direct enum-container dependencies of the entry at `i`. -/
def typeDepEnumIdxs (context : VkbBuild) (i : Nat) : List Nat :=
  (branchEnumDepNames (typeAt context i) (typeAt context i).name).filterMap
    (vkbBuildFindEnumByName context)

/-- The dependency-ordering guarantee of the resolver's output: no
duplicates; every resolvable type dependency of the entry at position `j`
already occurs among the first `j` entries (hence at a strictly smaller
index); and every resolvable `arrayEnum` dependency is present in the
enum-container index list. -/
def DepOrdered (context : VkbBuild) (s : DepState) : Prop :=
  s.typeIndexes.Nodup ∧
  (∀ j : Fin s.typeIndexes.length, ∀ a ∈ typeDepIdxs context (s.typeIndexes.get j),
    a ∈ s.typeIndexes.take j.val) ∧
  (∀ j : Fin s.typeIndexes.length, ∀ e ∈ typeDepEnumIdxs context (s.typeIndexes.get j),
    e ∈ s.enumIndexes)

/-! ## Extension enum values (`vkbBuildCalculateExtensionEnumValue`) -/

/-- `vkbBuildCalculateExtensionEnumValue(requireEnum, extnumber)`. -/
def vkbBuildCalculateExtensionEnumValue (requireEnum : VkbBuildRequireEnum)
    (extnumber : String) : String :=
  let dir : Int := if requireEnum.dir = "-" then -1 else 1
  let ext : Int := atoiStr extnumber
  let off : Int := atoiStr requireEnum.offset
  let val : Int := (1000000000 + (ext - 1) * 1000 + off) * dir
  toString val

/-- The value emitted for an extension's `Require.enum` that extends an
enum (the non-aliased branch of the extension scan in
`vkbBuildGenerateCode_C_Dependencies`, lines 2099–2103): an explicit
`value` wins; otherwise the token value is computed with `extnumber`
defaulting to the extension's own `number`. -/
def extensionRequireEnumEmittedValue (extension : VkbBuildExtension)
    (requireEnum : VkbBuildRequireEnum) : String :=
  if requireEnum.value ≠ "" then requireEnum.value
  else
    vkbBuildCalculateExtensionEnumValue requireEnum
      (if requireEnum.extnumber ≠ "" then requireEnum.extnumber else extension.number)

/-! ## Bit positions (`vkbBuildBitPosToHexStringEx`) -/

/-- `vkbBuildBitPosToHexStringEx` (for the in-range bit positions
`0 ≤ bitpos ≤ 63` admitted by its assertions). -/
def vkbBuildBitPosToHexStringEx (bitpos : Nat) (typeName : String) : String :=
  if bitpos < 32 then "0x" ++ hex8 (1 <<< bitpos)
  else
    "(" ++ typeName ++ ")(((" ++ typeName ++ ")0x" ++ hex8 ((1 <<< bitpos) / 2 ^ 32 % 2 ^ 32) ++
      " << 32) | (0x" ++ hex8 ((1 <<< bitpos) % 2 ^ 32) ++ "))"

/-! ## Extension reordering (`vkbBuildReorderExtensions`) -/

/-- `vkbBuildReorderExtensions`: collect the extensions with a non-empty
`promotedto`, then for each of them erase it from its current position and
insert it at the index at which the promoted-to extension was found
*before* the erase. -/
def vkbBuildReorderExtensions (extensions : List VkbBuildExtension) :
    List VkbBuildExtension :=
  let promotedExtensions := extensions.filter (fun e => e.promotedto ≠ "")
  promotedExtensions.foldl
    (fun exts pe =>
      match vkbBuildFindExtensionByName exts pe.name,
            vkbBuildFindExtensionByName exts pe.promotedto with
      | some iOldIndex, some iNewIndex => List.insertIdx iNewIndex pe (exts.eraseIdx iOldIndex)
      | _, _ => exts)
    extensions

/-! ## Deprecation adjustment during extension ingestion
(`vkbBuildParseExtension`, lines 1086–1097) -/

/-- The tail of `vkbBuildParseExtension`: append the freshly parsed
extension, then move the *first* already-added extension whose
`deprecatedby` names it to the end of the list (`break` after one hit). -/
def vkbAppendExtensionWithDeprecationFix (extensions : List VkbBuildExtension)
    (extension : VkbBuildExtension) : List VkbBuildExtension :=
  let l := extensions ++ [extension]
  match l.findIdx? (fun e => e.deprecatedby == extension.name) with
  | none => l
  | some i => (l ++ [l.getD i default]).eraseIdx i

/-! ## Command classification (`vkbBuildIsTypeChildOf` and friends) -/

/-- `vkbBuildIsTypeChildOf`: walk the handle `parent` chain.  The C++
recursion is unbounded (a cyclic `parent` chain loops forever), hence the
fuel. -/
def vkbBuildIsTypeChildOf (context : VkbBuild) :
    Nat → String → String → Option Bool
  | 0, _, _ => none
  | fuel + 1, parentType, childType =>
    if parentType = childType then some false
    else
      match context.types.find? (fun t => t.name == childType) with
      | none => some false
      | some t =>
        if t.category = "handle" then
          if t.parent = parentType then some true
          else vkbBuildIsTypeChildOf context fuel parentType t.parent
        else some false

/-- `vkbBuildIsDeviceLevelCommand` (fuel covers both the alias hop and the
parent-chain walk). -/
def vkbBuildIsDeviceLevelCommand (context : VkbBuild) :
    Nat → VkbBuildCommand → Option Bool
  | 0, _ => none
  | fuel + 1, command =>
    if command.aliasName = "" then
      match command.parameters with
      | [] => some false
      | p :: _ =>
        if p.type = "VkDevice" then some true
        else vkbBuildIsTypeChildOf context (fuel + 1) "VkDevice" p.type
    else
      match context.commands.find? (fun c => c.name == command.aliasName) with
      | none => some false
      | some aliased => vkbBuildIsDeviceLevelCommand context fuel aliased

/-- `vkbBuildIsInstanceLevelCommand`. -/
def vkbBuildIsInstanceLevelCommand (context : VkbBuild) :
    Nat → VkbBuildCommand → Option Bool
  | 0, _ => none
  | fuel + 1, command =>
    if command.aliasName = "" then
      match command.parameters with
      | [] => some false
      | p :: _ =>
        if p.type = "VkInstance" then some true
        else vkbBuildIsTypeChildOf context (fuel + 1) "VkInstance" p.type
    else
      match context.commands.find? (fun c => c.name == command.aliasName) with
      | none => some false
      | some aliased => vkbBuildIsInstanceLevelCommand context fuel aliased

/-- The specification-side view of `vkbBuildIsTypeChildOf`: `childType` is a
strict descendant of `parentType` through the `parent` links of `handle`
entries (each link resolved through the first registry entry with the given
name, exactly as the lookup loop does). -/
inductive HandleAncestor (context : VkbBuild) (parentType : String) : String → Prop
  | direct (childType : String) (t : VkbBuildType) :
      childType ≠ parentType →
      context.types.find? (fun u => u.name == childType) = some t →
      t.category = "handle" → t.parent = parentType →
      HandleAncestor context parentType childType
  | step (childType : String) (t : VkbBuildType) :
      childType ≠ parentType →
      context.types.find? (fun u => u.name == childType) = some t →
      t.category = "handle" → t.parent ≠ parentType →
      HandleAncestor context parentType t.parent →
      HandleAncestor context parentType childType

/-- Whether the first registry entry named `name` is a `handle`. -/
def isHandleTypeName (context : VkbBuild) (name : String) : Prop :=
  ∃ t, context.types.find? (fun u => u.name == name) = some t ∧ t.category = "handle"

/-! ## Safe-global loader table (`vkbBuildGenerateCode_C_LoadSafeGlobalAPI`) -/

/-- The fetch statement emitted into the safe-global table for `name`. -/
def safeGlobalStmt (name : String) : String :=
  name ++ " = (PFN_" ++ name ++ ")vkGetInstanceProcAddr(NULL, \"" ++ name ++ "\");"

/-- The loop body of `vkbBuildGenerateCode_C_LoadSafeGlobalAPI` for one
require command: skip unresolvable, already-emitted and instance-level
commands; otherwise append the fetch statement (with the `"\n    "`
separator once something besides the seed has been emitted) and record the
name. -/
def safeGlobalStep (context : VkbBuild) (fuel : Nat) (acc : String × List String)
    (requireCommand : VkbBuildRequireCommand) : Option (String × List String) :=
  match vkbBuildFindCommandByName context requireCommand.name with
  | none => some acc
  | some iCommand =>
    if requireCommand.name ∈ acc.2 then some acc
    else
      match vkbBuildIsInstanceLevelCommand context fuel (commandAt context iCommand) with
      | none => none
      | some true => some acc
      | some false =>
        let codeOut := if acc.2.length > 1 then acc.1 ++ "\n    " else acc.1
        some (codeOut ++ safeGlobalStmt (commandAt context iCommand).name,
          acc.2 ++ [requireCommand.name])

/-- `vkbBuildGenerateCode_C_LoadSafeGlobalAPI`: walk the features (only —
there is no extension walk in this function), emitting each resolvable,
not-yet-emitted, non-instance-level command; the running pair is
`(codeOut, outputCommands)` with `outputCommands` seeded so that
`vkGetInstanceProcAddr` is never emitted. -/
def vkbBuildGenerateCode_C_LoadSafeGlobalAPI (context : VkbBuild) (fuel : Nat) :
    Option (String × List String) :=
  context.features.foldlM
    (fun acc feature =>
      feature.requires.foldlM
        (fun acc require => require.commands.foldlM (safeGlobalStep context fuel) acc)
        acc)
    ("", ["vkGetInstanceProcAddr"])

/-- Whether some feature's require block lists command name `n`. -/
def featureRequiresCommand (context : VkbBuild) (n : String) : Prop :=
  ∃ f ∈ context.features, ∃ r ∈ f.requires, ∃ rc ∈ r.commands, rc.name = n

/-! ## Code generation state (`vkbBuildCodeGenState`) -/

/-- `vkbContains`. -/
def vkbContains (list : List String) (value : String) : Bool :=
  list.contains value

structure VkbBuildCodeGenState where
  featureDependencies : List DepState
  extensionDependencies : List DepState
  outputDefines : List String
  outputTypes : List String
  outputCommands : List String
deriving DecidableEq, Inhabited

/-- `vkbBuildCodeGenState::HasOutputDefine`. -/
def HasOutputDefine (st : VkbBuildCodeGenState) (name : String) : Bool :=
  vkbContains st.outputDefines name

/-- `vkbBuildCodeGenState::HasOutputType`. -/
def HasOutputType (st : VkbBuildCodeGenState) (name : String) : Bool :=
  vkbContains st.outputTypes name

/-- `vkbBuildCodeGenState::HasOutputCommand`. -/
def HasOutputCommand (st : VkbBuildCodeGenState) (name : String) : Bool :=
  vkbContains st.outputCommands name

/-- `MarkDefineAsOutput`.  The source first `assert`s `!HasOutputDefine` and
then pushes; the model performs the (release-mode) push, so a violated
assertion shows up as a duplicate in `outputDefines`. -/
def MarkDefineAsOutput (st : VkbBuildCodeGenState) (name : String) : VkbBuildCodeGenState :=
  { st with outputDefines := st.outputDefines ++ [name] }

/-- `MarkTypeAsOutput` (same `assert` caveat as `MarkDefineAsOutput`). -/
def MarkTypeAsOutput (st : VkbBuildCodeGenState) (name : String) : VkbBuildCodeGenState :=
  { st with outputTypes := st.outputTypes ++ [name] }

/-- `MarkCommandAsOutput` (same `assert` caveat). -/
def MarkCommandAsOutput (st : VkbBuildCodeGenState) (name : String) : VkbBuildCodeGenState :=
  { st with outputCommands := st.outputCommands ++ [name] }

/-! ## Emission helpers -/

/-- `vkbBuildGenerateCode_C_DependencyIncludes`. -/
def vkbBuildGenerateCode_C_DependencyIncludes (context : VkbBuild)
    (st : VkbBuildCodeGenState) (dependencies : DepState) (code : String) :
    VkbBuildCodeGenState × String :=
  dependencies.typeIndexes.foldl
    (fun (acc : VkbBuildCodeGenState × String) iType =>
      let type := typeAt context iType
      if type.name = "vk_platform" then acc
      else if type.category = "include" then
        if !(HasOutputType acc.1 type.name) then
          (MarkTypeAsOutput acc.1 type.name, acc.2 ++ "#include <" ++ type.name ++ ">\n")
        else acc
      else acc)
    (st, code)

/-- `vkbBuildGenerateCode_C_RequireDefineEnums`.  Note that the source marks
the define as output *without* first consulting `HasOutputDefine`. -/
def vkbBuildGenerateCode_C_RequireDefineEnums (st : VkbBuildCodeGenState)
    (require : VkbBuildRequire) (code : String) : VkbBuildCodeGenState × String :=
  require.enums.foldl
    (fun (acc : VkbBuildCodeGenState × String) requireEnum =>
      if requireEnum.value ≠ "" ∧ requireEnum.extendsAttr = "" then
        let code :=
          if requireEnum.aliasName ≠ "" then
            acc.2 ++ "#define " ++ requireEnum.name ++ " " ++ requireEnum.aliasName ++ "\n"
          else
            acc.2 ++ "#define " ++ requireEnum.name ++ " " ++ requireEnum.value ++ "\n"
        (MarkDefineAsOutput acc.1 requireEnum.name, code)
      else acc)
    (st, code)

/-- `vkbBuildGenerateCode_C_Function`. -/
def vkbBuildGenerateCode_C_Function (returnTypeC name : String)
    (parameters : List VkbBuildFunctionParameter) (code : String) : String :=
  let nameLead := if (strFind name.data ['P', 'F', 'N', '_'] 0).isNone then "PFN_" else ""
  let code := code ++ "typedef " ++ returnTypeC ++ " (VKAPI_PTR *" ++ nameLead ++ name ++ ")("
  let code :=
    if parameters.length > 0 then
      code ++ String.intercalate ", " (parameters.map (fun p => p.typeC ++ " " ++ p.nameC))
    else code ++ "void"
  code ++ ");\n"

/-- `vkbBuildGenerateCode_C_Command` (the source passes the bare
`command.returnType`). -/
def vkbBuildGenerateCode_C_Command (command : VkbBuildCommand) (name : String)
    (code : String) : String :=
  vkbBuildGenerateCode_C_Function command.returnType name command.parameters code

/-- `vkbBuildGenerateCode_C_FuncPointer`. -/
def vkbBuildGenerateCode_C_FuncPointer (funcpointer : VkbBuildFunctionPointer) (name : String)
    (code : String) : String :=
  vkbBuildGenerateCode_C_Function funcpointer.returnType name funcpointer.params code

/-- `vkbBuildGenerateCode_C_RequireCommands`. -/
def vkbBuildGenerateCode_C_RequireCommands (context : VkbBuild) (st : VkbBuildCodeGenState)
    (commands : List VkbBuildRequireCommand) (code : String) : VkbBuildCodeGenState × String :=
  commands.foldl
    (fun (acc : VkbBuildCodeGenState × String) requireCommand =>
      match vkbBuildFindCommandByName context requireCommand.name with
      | none => acc
      | some iCommand =>
        let command := commandAt context iCommand
        if !(HasOutputCommand acc.1 command.name) then
          let code :=
            if command.aliasName ≠ "" then
              match vkbBuildFindCommandByName context command.aliasName with
              | some iBaseCommand =>
                vkbBuildGenerateCode_C_Command (commandAt context iBaseCommand) command.name acc.2
              | none => acc.2
            else vkbBuildGenerateCode_C_Command command command.name acc.2
          (MarkCommandAsOutput acc.1 command.name, code)
        else acc)
    (st, code)

/-- `vkbNameToUpperCaseStyle`. -/
def vkbNameToUpperCaseStyle (name : String) : String :=
  "VK" ++ String.mk
    ((name.data.drop 2).flatMap (fun c => if c.isUpper then ['_', c] else [c.toUpper]))

/-- `vkbExtractTagFromName`. -/
def vkbExtractTagFromName (context : VkbBuild) (name : String) : String :=
  match context.tags.find?
      (fun tag =>
        name.length > tag.name.length &&
          name.data.drop (name.length - tag.name.length) == tag.name.data) with
  | some tag => tag.name
  | none => ""

/-- `vkbGenerateMaxEnumToken`. -/
def vkbGenerateMaxEnumToken (context : VkbBuild) (enumName : String) : String :=
  let tag := vkbExtractTagFromName context enumName
  let result := vkbNameToUpperCaseStyle (String.mk (enumName.data.take (enumName.length - tag.length)))
  let result := result ++ "_MAX_ENUM"
  if tag.length > 0 then result ++ "_" ++ tag else result

/-- `vkbBuildFindEnumValue`: resolve an enum item name to its concrete
value, following alias chains (the chain can be cyclic in a malformed
registry, hence fuel; the inner `Option` is the C++ `bool` result). -/
def vkbBuildFindEnumValue (context : VkbBuild) : Nat → String → Option (Option VkbBuildEnum)
  | 0, _ => none
  | fuel + 1, name =>
    match (context.enums.flatMap (fun e => e.enums)).find? (fun item => item.name == name) with
    | some item =>
      if item.aliasName = "" then some (some item)
      else vkbBuildFindEnumValue context fuel item.aliasName
    | none =>
      match ((context.features.flatMap (fun f => f.requires)).flatMap (fun r => r.enums)).find?
          (fun e => e.name == name) with
      | some enumValue =>
        if enumValue.aliasName = "" then
          some (some ⟨enumValue.name, "", enumValue.value, enumValue.bitpos⟩)
        else vkbBuildFindEnumValue context fuel enumValue.aliasName
      | none =>
        match ((context.extensions.flatMap (fun e => e.requires)).flatMap
            (fun r => r.enums)).find? (fun e => e.name == name) with
        | some enumValue =>
          if enumValue.aliasName = "" then
            some (some ⟨enumValue.name, "", enumValue.value, enumValue.bitpos⟩)
          else vkbBuildFindEnumValue context fuel enumValue.aliasName
        | none => some none

/-- All feature `Require.enum` entries, in scan order. -/
def featureRequireEnums (context : VkbBuild) : List VkbBuildRequireEnum :=
  (context.features.flatMap (fun f => f.requires)).flatMap (fun r => r.enums)

/-- All extension `Require.enum` entries paired with their extension, in
scan order. -/
def extensionRequireEnums (context : VkbBuild) :
    List (VkbBuildExtension × VkbBuildRequireEnum) :=
  context.extensions.flatMap
    (fun e => (e.requires.flatMap (fun r => r.enums)).map (fun re => (e, re)))

/-! ## The bitmask/enum emission block of
`vkbBuildGenerateCode_C_Dependencies` (lines 1834–2037) -/

/-- The body emitted for a bitmask whose backing enum container was found:
base items, feature- and extension-added non-aliased items, then aliased
items (with 64-bit aliases resolved through `vkbBuildFindEnumValue`),
then the `_MAX_ENUM` terminator for the 32-bit form. -/
def bitmaskEnumsBlock (context : VkbBuild) (fuel : Nat) (type : VkbBuildType)
    (enums : VkbBuildEnums) (code : String) : Option String := do
  let using64BitFlags := !(type.bitvalues.length == 0)
  let enumValueLead :=
    if type.bitvalues.length == 0 then "    " else "static const " ++ enums.name ++ " "
  let code := code ++ "\n"
  let code :=
    if type.bitvalues.length == 0 then code ++ "typedef enum\n\x7b\n"
    else code ++ "typedef " ++ type.type ++ " " ++ enums.name ++ ";\n"
  -- base items
  let acc ← enums.enums.enum.foldlM
    (fun (acc : String × List String × Nat) ivPair => do
      let (code, outputEnums, enumValueCount) := acc
      let iEnumValue := ivPair.1
      let item := ivPair.2
      let code := if !using64BitFlags && iEnumValue > 0 then code ++ ",\n" else code
      let enumValue ←
        if using64BitFlags && item.aliasName != "" then
          (vkbBuildFindEnumValue context fuel item.aliasName).map (fun r => r.getD item)
        else some item
      let code :=
        if enumValue.bitpos.length > 0 then
          code ++ enumValueLead ++ item.name ++ " = " ++
            vkbBuildBitPosToHexStringEx (atoiStr enumValue.bitpos).toNat enums.name
        else if enumValue.aliasName ≠ "" then
          code ++ enumValueLead ++ item.name ++ " = " ++ enumValue.aliasName
        else
          code ++ enumValueLead ++ item.name ++ " = " ++ enumValue.value
      let code := if using64BitFlags then code ++ ";\n" else code
      pure (code, outputEnums ++ [item.name], enumValueCount + 1))
    (code, ([] : List String), 0)
  -- features extending the enum, non-aliased items
  let acc := (featureRequireEnums context).foldl
    (fun (acc : String × List String × Nat) otherRequireEnum =>
      let (code, outputEnums, enumValueCount) := acc
      if otherRequireEnum.extendsAttr = enums.name ∧ otherRequireEnum.aliasName = "" ∧
          !(vkbContains outputEnums otherRequireEnum.name) then
        let code := if !using64BitFlags && enumValueCount > 0 then code ++ ",\n" else code
        let code :=
          if otherRequireEnum.bitpos.length > 0 then
            code ++ enumValueLead ++ otherRequireEnum.name ++ " = " ++
              vkbBuildBitPosToHexStringEx (atoiStr otherRequireEnum.bitpos).toNat
                otherRequireEnum.extendsAttr
          else
            code ++ enumValueLead ++ otherRequireEnum.name ++ " = " ++ otherRequireEnum.value
        let code := if using64BitFlags then code ++ ";\n" else code
        (code, outputEnums ++ [otherRequireEnum.name], enumValueCount + 1)
      else acc)
    acc
  -- extensions extending the enum, non-aliased items
  let acc := (extensionRequireEnums context).foldl
    (fun (acc : String × List String × Nat) pair =>
      let (code, outputEnums, enumValueCount) := acc
      let otherRequireEnum := pair.2
      if otherRequireEnum.extendsAttr = enums.name ∧ otherRequireEnum.aliasName = "" ∧
          !(vkbContains outputEnums otherRequireEnum.name) then
        let code := if !using64BitFlags && enumValueCount > 0 then code ++ ",\n" else code
        let code :=
          if otherRequireEnum.bitpos.length > 0 then
            code ++ enumValueLead ++ otherRequireEnum.name ++ " = " ++
              vkbBuildBitPosToHexStringEx (atoiStr otherRequireEnum.bitpos).toNat
                otherRequireEnum.extendsAttr
          else
            code ++ enumValueLead ++ otherRequireEnum.name ++ " = " ++ otherRequireEnum.value
        let code := if using64BitFlags then code ++ ";\n" else code
        (code, outputEnums ++ [otherRequireEnum.name], enumValueCount + 1)
      else acc)
    acc
  -- aliased items added by features
  let acc ← (featureRequireEnums context).foldlM
    (fun (acc : String × List String × Nat) otherRequireEnum => do
      let (code, outputEnums, enumValueCount) := acc
      if otherRequireEnum.extendsAttr = enums.name ∧ otherRequireEnum.aliasName ≠ "" ∧
          !(vkbContains outputEnums otherRequireEnum.name) then
        let code := if !using64BitFlags && enumValueCount > 0 then code ++ ",\n" else code
        let code ←
          if using64BitFlags then do
            let found ← vkbBuildFindEnumValue context fuel otherRequireEnum.aliasName
            match found with
            | some enumValue =>
              let code :=
                if enumValue.bitpos.length > 0 then
                  code ++ enumValueLead ++ otherRequireEnum.name ++ " = " ++
                    vkbBuildBitPosToHexStringEx (atoiStr enumValue.bitpos).toNat
                      otherRequireEnum.extendsAttr
                else
                  code ++ enumValueLead ++ otherRequireEnum.name ++ " = " ++ enumValue.value
              pure (code ++ ";\n")
            | none =>
              pure (code ++ enumValueLead ++ otherRequireEnum.name ++ " = " ++
                otherRequireEnum.aliasName ++ ";\n")
          else
            pure (code ++ enumValueLead ++ otherRequireEnum.name ++ " = " ++
              otherRequireEnum.aliasName)
        pure (code, outputEnums ++ [otherRequireEnum.name], enumValueCount + 1)
      else pure acc)
    acc
  -- aliased items added by extensions
  let acc ← (extensionRequireEnums context).foldlM
    (fun (acc : String × List String × Nat) pair => do
      let (code, outputEnums, enumValueCount) := acc
      let otherRequireEnum := pair.2
      if otherRequireEnum.extendsAttr = enums.name ∧ otherRequireEnum.aliasName ≠ "" ∧
          !(vkbContains outputEnums otherRequireEnum.name) then
        let code := if !using64BitFlags && enumValueCount > 0 then code ++ ",\n" else code
        let code ←
          if using64BitFlags then do
            let found ← vkbBuildFindEnumValue context fuel otherRequireEnum.aliasName
            match found with
            | some enumValue =>
              let code :=
                if enumValue.bitpos.length > 0 then
                  code ++ enumValueLead ++ otherRequireEnum.name ++ " = " ++
                    vkbBuildBitPosToHexStringEx (atoiStr enumValue.bitpos).toNat
                      otherRequireEnum.extendsAttr
                else
                  code ++ enumValueLead ++ otherRequireEnum.name ++ " = " ++ enumValue.value
              pure (code ++ ";\n")
            | none =>
              pure (code ++ enumValueLead ++ otherRequireEnum.name ++ " = " ++
                otherRequireEnum.aliasName ++ ";\n")
          else
            pure (code ++ enumValueLead ++ otherRequireEnum.name ++ " = " ++
              otherRequireEnum.aliasName)
        pure (code, outputEnums ++ [otherRequireEnum.name], enumValueCount + 1)
      else pure acc)
    acc
  -- _MAX_ENUM terminator (32-bit form only)
  let (code, _, enumValueCount) := acc
  if !using64BitFlags then
    let code := if enumValueCount > 0 then code ++ ",\n" else code
    pure (code ++ "    " ++ vkbGenerateMaxEnumToken context enums.name ++ " = 0x7FFFFFFF" ++
      "\n\x7d " ++ enums.name ++ ";\n")
  else
    pure code

/-- The `typedef enum` body emitted for a `category="enum"` type whose
container has `type="enum"` (lines 2050–2152): base items, feature- and
extension-added non-aliased items (extension token values computed by
`vkbBuildCalculateExtensionEnumValue`), aliased items last, then the
`_MAX_ENUM` terminator. -/
def enumTypedefBlock (context : VkbBuild) (enums : VkbBuildEnums) (code : String) : String :=
  let code := code ++ "typedef enum\n\x7b\n"
  let acc := enums.enums.enum.foldl
    (fun (acc : String × List String) ivPair =>
      let (code, outputEnums) := acc
      let iEnumValue := ivPair.1
      let item := ivPair.2
      let code := if iEnumValue > 0 then code ++ ",\n" else code
      let code :=
        if item.aliasName ≠ "" then code ++ "    " ++ item.name ++ " = " ++ item.aliasName
        else code ++ "    " ++ item.name ++ " = " ++ item.value
      (code, outputEnums ++ [item.name]))
    (code, ([] : List String))
  let acc := (featureRequireEnums context).foldl
    (fun (acc : String × List String) otherRequireEnum =>
      let (code, outputEnums) := acc
      if otherRequireEnum.extendsAttr = enums.name ∧ otherRequireEnum.aliasName = "" ∧
          !(vkbContains outputEnums otherRequireEnum.name) then
        let code := code ++ ",\n"
        let code :=
          if otherRequireEnum.value ≠ "" then
            code ++ "    " ++ otherRequireEnum.name ++ " = " ++ otherRequireEnum.value
          else
            code ++ "    " ++ otherRequireEnum.name ++ " = " ++
              vkbBuildCalculateExtensionEnumValue otherRequireEnum otherRequireEnum.extnumber
        (code, outputEnums ++ [otherRequireEnum.name])
      else acc)
    acc
  let acc := (extensionRequireEnums context).foldl
    (fun (acc : String × List String) pair =>
      let (code, outputEnums) := acc
      let extension := pair.1
      let otherRequireEnum := pair.2
      if otherRequireEnum.extendsAttr = enums.name ∧ otherRequireEnum.aliasName = "" ∧
          !(vkbContains outputEnums otherRequireEnum.name) then
        let code := code ++ ",\n"
        let code :=
          if otherRequireEnum.value ≠ "" then
            code ++ "    " ++ otherRequireEnum.name ++ " = " ++ otherRequireEnum.value
          else
            code ++ "    " ++ otherRequireEnum.name ++ " = " ++
              vkbBuildCalculateExtensionEnumValue otherRequireEnum
                (if otherRequireEnum.extnumber ≠ "" then otherRequireEnum.extnumber
                 else extension.number)
        (code, outputEnums ++ [otherRequireEnum.name])
      else acc)
    acc
  let acc := (featureRequireEnums context).foldl
    (fun (acc : String × List String) otherRequireEnum =>
      let (code, outputEnums) := acc
      if otherRequireEnum.extendsAttr = enums.name ∧ otherRequireEnum.aliasName ≠ "" ∧
          !(vkbContains outputEnums otherRequireEnum.name) then
        (code ++ ",\n" ++ "    " ++ otherRequireEnum.name ++ " = " ++ otherRequireEnum.aliasName,
          outputEnums ++ [otherRequireEnum.name])
      else acc)
    acc
  let acc := (extensionRequireEnums context).foldl
    (fun (acc : String × List String) pair =>
      let (code, outputEnums) := acc
      let otherRequireEnum := pair.2
      if otherRequireEnum.extendsAttr = enums.name ∧ otherRequireEnum.aliasName ≠ "" ∧
          !(vkbContains outputEnums otherRequireEnum.name) then
        (code ++ ",\n" ++ "    " ++ otherRequireEnum.name ++ " = " ++ otherRequireEnum.aliasName,
          outputEnums ++ [otherRequireEnum.name])
      else acc)
    acc
  acc.1 ++ ",\n" ++ "    " ++ vkbGenerateMaxEnumToken context enums.name ++ " = 0x7FFFFFFF" ++
    "\n\x7d " ++ enums.name ++ ";\n\n"

/-! ## `vkbBuildGenerateCode_C_Dependencies` -/

/-- `vkbBuildGenerateCode_C_Dependencies`: emit, in fixed category order,
defines, `#define`-style enums, basetypes, handles, bitmasks/enums,
then structs/unions/function pointers, each gated by the emitted sets. -/
def vkbBuildGenerateCode_C_Dependencies (context : VkbBuild) (fuel : Nat)
    (st : VkbBuildCodeGenState) (dependencies : DepState) (code : String) :
    Option (VkbBuildCodeGenState × String) := do
  let typeIndices := dependencies.typeIndexes
  let enumIndices := dependencies.enumIndexes
  -- define
  let (st, code, count) := typeIndices.foldl
    (fun (acc : VkbBuildCodeGenState × String × Nat) iType =>
      let (st, code, count) := acc
      let type := typeAt context iType
      if !(HasOutputDefine st type.name) then
        if type.category = "define" then
          let defineValue := vkbBuildCleanDefineValue type.verbatimValue
          if defineValue.length > 0 then
            (MarkDefineAsOutput st type.name, code ++ defineValue ++ "\n", count + 1)
          else (st, code, count)
        else (st, code, count)
      else (st, code, count))
    (st, code, 0)
  let code := if count > 0 then code ++ "\n" else code
  -- #define-style enums
  let (st, code, count) := enumIndices.foldl
    (fun (acc : VkbBuildCodeGenState × String × Nat) iEnum =>
      let (st, code, count) := acc
      let enums := enumsAt context iEnum
      let item0 := enums.enums.getD 0 default
      if !(HasOutputDefine st item0.name) then
        if enums.type = "" then
          let code :=
            if item0.aliasName ≠ "" then
              code ++ "#define " ++ item0.name ++ " " ++ item0.aliasName ++ "\n"
            else
              code ++ "#define " ++ item0.name ++ " " ++ item0.value ++ "\n"
          (MarkDefineAsOutput st item0.name, code, count + 1)
        else (st, code, count)
      else (st, code, count))
    (st, code, 0)
  let code := if count > 0 then code ++ "\n" else code
  -- basetype
  let (st, code, count) := typeIndices.foldl
    (fun (acc : VkbBuildCodeGenState × String × Nat) iType =>
      let (st, code, count) := acc
      let type := typeAt context iType
      if !(HasOutputType st type.name) then
        if type.category = "basetype" then
          (MarkTypeAsOutput st type.name, code ++ type.verbatimValue ++ "\n", count + 1)
        else (st, code, count)
      else (st, code, count))
    (st, code, 0)
  let code := if count > 0 then code ++ "\n" else code
  -- handle
  let (st, code, count) := typeIndices.foldl
    (fun (acc : VkbBuildCodeGenState × String × Nat) iType =>
      let (st, code, count) := acc
      let type := typeAt context iType
      if !(HasOutputType st type.name) then
        if type.category = "handle" then
          if type.aliasName ≠ "" then
            (MarkTypeAsOutput st type.name,
              code ++ "typedef " ++ type.aliasName ++ " " ++ type.name ++ ";\n", count)
          else
            (MarkTypeAsOutput st type.name,
              code ++ type.type ++ "(" ++ type.name ++ ")\n", count + 1)
        else (st, code, count)
      else (st, code, count))
    (st, code, 0)
  let code := if count > 0 then code ++ "\n" else code
  -- bitmask and enum (one combined pass, as in the source)
  let acc ← typeIndices.foldlM
    (fun (acc : VkbBuildCodeGenState × String × Nat) iType => do
      let (st, code, count) := acc
      let type := typeAt context iType
      if !(HasOutputType st type.name) then
        if type.category = "bitmask" ∨ type.category = "enum" then
          if type.aliasName ≠ "" then
            pure (MarkTypeAsOutput st type.name,
              code ++ "typedef " ++ type.aliasName ++ " " ++ type.name ++ ";\n", count)
          else do
            let (code, count) ←
              if type.category = "bitmask" then do
                let (code, count) ←
                  if type.requires.length > 0 ∨ type.bitvalues.length > 0 then
                    let enumsIdx :=
                      if type.requires.length > 0 then
                        vkbBuildFindEnumByName context type.requires
                      else vkbBuildFindEnumByName context type.bitvalues
                    match enumsIdx with
                    | some iEnums => do
                      let code ← bitmaskEnumsBlock context fuel type (enumsAt context iEnums) code
                      pure (code, count + 1)
                    | none => pure (code, count)
                  else pure (code, count)
                pure (code ++ "typedef " ++ type.type ++ " " ++ type.name ++ ";\n", count)
              else pure (code, count)
            let (code, count) :=
              if type.category = "enum" then
                match vkbBuildFindEnumByName context type.name with
                | some iEnums =>
                  let enums := enumsAt context iEnums
                  if enums.type = "enum" then (enumTypedefBlock context enums code, count + 1)
                  else (code, count)
                | none => (code, count)
              else (code, count)
            pure (MarkTypeAsOutput st type.name, code, count)
        else pure acc
      else pure acc)
    (st, code, 0)
  let (st, code, count) := acc
  let code := if count > 0 then code ++ "\n" else code
  -- struct, union and funcpointer (one combined pass)
  let (st, code, count, _) := typeIndices.foldl
    (fun (acc : VkbBuildCodeGenState × String × Nat × Bool) iType =>
      let (st, code, count, wasFuncPointerOutputLast) := acc
      let type := typeAt context iType
      if !(HasOutputType st type.name) then
        let acc1 :=
          if type.category = "struct" ∨ type.category = "union" then
            if type.aliasName ≠ "" then
              (MarkTypeAsOutput st type.name,
                code ++ "typedef " ++ type.aliasName ++ " " ++ type.name ++ ";\n\n", count, false)
            else
              let code := if wasFuncPointerOutputLast then code ++ "\n" else code
              let code := code ++ "typedef " ++ type.category ++ " " ++ type.name ++ "\n\x7b\n"
              let code := type.structData.foldl
                (fun code m => code ++ "    " ++ m.typeC ++ " " ++ m.nameC ++ ";\n") code
              (MarkTypeAsOutput st type.name,
                code ++ "\x7d " ++ type.name ++ ";\n\n", count + 1, false)
          else (st, code, count, wasFuncPointerOutputLast)
        let (st, code, count, wasFuncPointerOutputLast) := acc1
        if type.category = "funcpointer" then
          let (code, count) :=
            if type.aliasName ≠ "" then
              match vkbBuildFindTypeByName context type.aliasName with
              | some iBaseType =>
                (vkbBuildGenerateCode_C_FuncPointer (typeAt context iBaseType).funcpointer
                  type.name code, count + 1)
              | none => (code, count)
            else
              (vkbBuildGenerateCode_C_FuncPointer type.funcpointer type.name code, count + 1)
          (MarkTypeAsOutput st type.name, code, count, true)
        else (st, code, count, wasFuncPointerOutputLast)
      else acc)
    (st, code, 0, false)
  let code := if count > 0 then code ++ "\n" else code
  pure (st, code)

/-! ## Per-feature / per-extension emission and the main driver -/

/-- `vkbBuildGenerateCode_C_Feature`. -/
def vkbBuildGenerateCode_C_Feature (context : VkbBuild) (fuel : Nat)
    (st : VkbBuildCodeGenState) (iFeature : Nat) (code : String) :
    Option (VkbBuildCodeGenState × String) := do
  let feature := context.features.getD iFeature default
  let code := code ++ "\n#define " ++ feature.name ++ " 1\n"
  let (st, code) := vkbBuildGenerateCode_C_DependencyIncludes context st
    (st.featureDependencies.getD iFeature default) code
  let (st, code) := feature.requires.foldl
    (fun (acc : VkbBuildCodeGenState × String) require =>
      vkbBuildGenerateCode_C_RequireDefineEnums acc.1 require acc.2)
    (st, code)
  let code := code ++ "\n"
  let (st, code) ← vkbBuildGenerateCode_C_Dependencies context fuel st
    (st.featureDependencies.getD iFeature default) code
  let (st, code) := feature.requires.foldl
    (fun (acc : VkbBuildCodeGenState × String) require =>
      vkbBuildGenerateCode_C_RequireCommands context acc.1 require.commands acc.2)
    (st, code)
  pure (st, code)

/-- `vkbBuildGenerateCode_C_Extension`. -/
def vkbBuildGenerateCode_C_Extension (context : VkbBuild) (fuel : Nat)
    (st : VkbBuildCodeGenState) (iExtension : Nat) (code : String) :
    Option (VkbBuildCodeGenState × String) := do
  let extension := context.extensions.getD iExtension default
  let code := code ++ "\n#define " ++ extension.name ++ " 1\n"
  let (st, code) := vkbBuildGenerateCode_C_DependencyIncludes context st
    (st.extensionDependencies.getD iExtension default) code
  let (st, code) := extension.requires.foldl
    (fun (acc : VkbBuildCodeGenState × String) require =>
      vkbBuildGenerateCode_C_RequireDefineEnums acc.1 require acc.2)
    (st, code)
  let code := code ++ "\n"
  let (st, code) ← vkbBuildGenerateCode_C_Dependencies context fuel st
    (st.extensionDependencies.getD iExtension default) code
  let (st, code) := extension.requires.foldl
    (fun (acc : VkbBuildCodeGenState × String) require =>
      vkbBuildGenerateCode_C_RequireCommands context acc.1 require.commands acc.2)
    (st, code)
  pure (st, code)

/-- `vkbBuildGenerateCode_C_Main`: reorder promoted extensions, collect all
feature and extension dependencies, then emit features, cross-platform
extensions, and platform-guarded extensions. -/
def vkbBuildGenerateCode_C_Main (context0 : VkbBuild) (fuel : Nat) :
    Option (VkbBuildCodeGenState × String) := do
  let context := { context0 with extensions := vkbBuildReorderExtensions context0.extensions }
  let featureDeps ← context.features.mapM (fun f => vkbParseFeatureDependencies context fuel f)
  let extensionDeps ← context.extensions.mapM
    (fun e => vkbParseExtensionDependencies context fuel e)
  let st : VkbBuildCodeGenState := ⟨featureDeps, extensionDeps, [], [], []⟩
  let acc ← (List.range context.features.length).foldlM
    (fun (acc : VkbBuildCodeGenState × String) iFeature =>
      vkbBuildGenerateCode_C_Feature context fuel acc.1 iFeature acc.2)
    (st, "")
  let acc ← (List.range context.extensions.length).foldlM
    (fun (acc : VkbBuildCodeGenState × String) iExtension =>
      if (context.extensions.getD iExtension default).platform = "" then
        vkbBuildGenerateCode_C_Extension context fuel acc.1 iExtension acc.2
      else pure acc)
    acc
  context.platforms.foldlM
    (fun (acc : VkbBuildCodeGenState × String) platform =>
      if platform.name = "mir" then pure acc
      else do
        let (st, code) := acc
        let code := code ++ "#ifdef " ++ platform.protect ++ "\n"
        let (st, code) := (List.range context.extensions.length).foldl
          (fun (acc2 : VkbBuildCodeGenState × String) iExtension =>
            if (context.extensions.getD iExtension default).platform = platform.name then
              vkbBuildGenerateCode_C_DependencyIncludes context acc2.1
                (acc2.1.extensionDependencies.getD iExtension default) acc2.2
            else acc2)
          (st, code)
        let acc2 ← (List.range context.extensions.length).foldlM
          (fun (acc2 : VkbBuildCodeGenState × String) iExtension =>
            if (context.extensions.getD iExtension default).platform = platform.name then
              vkbBuildGenerateCode_C_Extension context fuel acc2.1 iExtension acc2.2
            else pure acc2)
          (st, code)
        pure (acc2.1, acc2.2 ++ "#endif /*" ++ platform.protect ++ "*/\n\n"))
    acc

/-! ## Vulkan version and revision derivation (`vkbBuildGetVulkanVersion`,
`vkbBuildGenerateCode_C_Revision`) -/

/-- `vkbBuildGetVulkanVersion`: the last feature's `number`, extended with
the integer text of the `VK_HEADER_VERSION` define.  `none` models the
undefined behaviour the source has when there is no feature at all, or when
`strstr` fails to find the define's own name inside its cleaned value. -/
def vkbBuildGetVulkanVersion (context : VkbBuild) : Option String :=
  match context.features.getLast? with
  | none => none
  | some lastFeature =>
    match context.types.find?
        (fun t => t.category == "define" && t.name == "VK_HEADER_VERSION") with
    | none => some lastFeature.number
    | some type =>
      let defineValue := vkbBuildCleanDefineValue type.verbatimValue
      match strFind defineValue.data type.name.data 0 with
      | none => none
      | some pos =>
        some (lastFeature.number ++ "." ++
          (vkbTrimChars (defineValue.data.drop (pos + type.name.length))).asString)

/-- `vkbBuildGenerateCode_C_Revision`.  The previous output file is an
external input, passed as `none` (file absent) or `some content`.  The
banner is located with `strstr("vkbind - v")`; the four version segments
are split on the following `.`/`.`/`.`/`' '`.  `none` models the undefined
behaviour when a separator is missing after a banner was found. -/
def vkbBuildGenerateCode_C_Revision (context : VkbBuild) (prevFile : Option String) :
    Option String :=
  match prevFile with
  | none => some "0"
  | some content =>
    let cs := content.data
    match strFind cs ("vkbind - v".data) 0 with
    | none => some "0"
    | some pos =>
      let versionBeg := cs.drop (pos + "vkbind - v".length)
      match vkbBuildGetVulkanVersion context with
      | none => none
      | some currentVulkanVersion =>
        match strFind versionBeg ['.'] 0 with
        | none => none
        | some p1 =>
          let prevVersionMajor := versionBeg.take p1
          let rest1 := versionBeg.drop (p1 + 1)
          match strFind rest1 ['.'] 0 with
          | none => none
          | some p2 =>
            let prevVersionMinor := rest1.take p2
            let rest2 := rest1.drop (p2 + 1)
            match strFind rest2 ['.'] 0 with
            | none => none
            | some p3 =>
              let prevVersionHeader := rest2.take p3
              let rest3 := rest2.drop (p3 + 1)
              match strFind rest3 [' '] 0 with
              | none => none
              | some p4 =>
                let prevVersionRevision := rest3.take p4
                let previousVulkanVersion :=
                  prevVersionMajor ++ '.' :: prevVersionMinor ++ '.' :: prevVersionHeader
                if currentVulkanVersion.data = previousVulkanVersion then
                  some (toString (atoiChars prevVersionRevision + 1))
                else
                  some "0"

/-! ## Concrete registry fragments used by witnesses and counterexamples -/

def exExtA : VkbBuildExtension :=
  { name := "VK_A", number := "1", type := "", platform := "", supported := "vulkan",
    promotedto := "", deprecatedby := "", requires := [] }

def exExtB : VkbBuildExtension :=
  { name := "VK_B", number := "2", type := "", platform := "", supported := "vulkan",
    promotedto := "VK_A", deprecatedby := "", requires := [] }

def exExtD1 : VkbBuildExtension :=
  { name := "VK_D1", number := "1", type := "", platform := "", supported := "vulkan",
    promotedto := "", deprecatedby := "VK_X", requires := [] }

def exExtD2 : VkbBuildExtension :=
  { name := "VK_D2", number := "2", type := "", platform := "", supported := "vulkan",
    promotedto := "", deprecatedby := "VK_X", requires := [] }

def exExtX : VkbBuildExtension :=
  { name := "VK_X", number := "3", type := "", platform := "", supported := "vulkan",
    promotedto := "", deprecatedby := "", requires := [] }

/-- Scenario B's require enum: `extends`, `extnumber = 42`, `offset = 3`,
`dir = "-"`, no explicit value. -/
def exRequireEnumB : VkbBuildRequireEnum :=
  { name := "VK_SOMETHING_FOO", aliasName := "", value := "", extendsAttr := "VkSomeEnum",
    bitpos := "", extnumber := "42", offset := "3", dir := "-" }

/-! ## C2: extension enum token values -/

/-- Claim C2: for a `Require.enum` of an extension carrying `extends` and
`offset` and no explicit `value`, the emitted integer equals
`dir_sign * (1000000000 + (extnumber - 1) * 1000 + offset)` with `dir_sign
= -1` exactly when `dir = "-"`, and with `extnumber` defaulting to the
extension's own `number` when the item carries none. -/
theorem C2_extension_enum_value (extension : VkbBuildExtension)
    (requireEnum : VkbBuildRequireEnum) (hval : requireEnum.value = "") :
    extensionRequireEnumEmittedValue extension requireEnum =
      toString ((if requireEnum.dir = "-" then (-1 : Int) else 1) *
        (1000000000 +
          (atoiStr (if requireEnum.extnumber ≠ "" then requireEnum.extnumber
            else extension.number) - 1) * 1000 +
          atoiStr requireEnum.offset)) := by
  simp only [extensionRequireEnumEmittedValue, vkbBuildCalculateExtensionEnumValue]
  rw [if_neg (by simp [hval])]
  congr 1
  ring

/-- Claim C2 witness: Scenario B (`extends VkSomeEnum`, `extnumber = 42`,
`offset = 3`, `dir = "-"`) emits `-1000041003`. -/
theorem C2_extension_enum_value_witness :
    exRequireEnumB.value = "" ∧
    extensionRequireEnumEmittedValue exExtA exRequireEnumB =
      toString ((if exRequireEnumB.dir = "-" then (-1 : Int) else 1) *
        (1000000000 +
          (atoiStr (if exRequireEnumB.extnumber ≠ "" then exRequireEnumB.extnumber
            else exExtA.number) - 1) * 1000 +
          atoiStr exRequireEnumB.offset)) ∧
    extensionRequireEnumEmittedValue exExtA exRequireEnumB = "-1000041003" :=
  ⟨rfl, C2_extension_enum_value exExtA exRequireEnumB rfl, by decide⟩

/-! ## C3: promotion reordering -/

/-- Claim C3 (evaluation at the failing input): with the extensions parsed
in the order `[VK_A, VK_B]` and `VK_B.promotedto = "VK_A"`, the reorder
pass of `vkbBuildReorderExtensions` places `VK_B` immediately *before*
`VK_A` (it computes the insertion index before erasing, so the block for A
no longer precedes the block for B), contradicting both the claim and the
source's own comment. -/
theorem C3_reorder_failing_input :
    (vkbBuildReorderExtensions [exExtA, exExtB]).map (fun e => e.name) = ["VK_B", "VK_A"] ∧
    (vkbBuildReorderExtensions [exExtB, exExtA]).map (fun e => e.name) = ["VK_A", "VK_B"] := by
  decide

/-! ## C4: deprecation adjustment moves only the first match -/

/-- Claim C4 counterexample: with two earlier extensions `VK_D1`, `VK_D2`
both carrying `deprecatedby = "VK_X"`, ingesting `VK_X` moves only `VK_D1`
to the end; `VK_D2` (which the claim says must also be moved after `VK_X`)
stays in front of `VK_X`. -/
theorem C4_deprecation_counterexample :
    (vkbAppendExtensionWithDeprecationFix [exExtD1, exExtD2] exExtX).map (fun e => e.name) =
      ["VK_D2", "VK_X", "VK_D1"] ∧
    ((vkbAppendExtensionWithDeprecationFix [exExtD1, exExtD2] exExtX).map
        (fun e => e.name)).indexOf "VK_D2" <
      ((vkbAppendExtensionWithDeprecationFix [exExtD1, exExtD2] exExtX).map
        (fun e => e.name)).indexOf "VK_X" := by
  decide

/-- Claim C4 as amended: after appending the new extension X, only the
*first* already-parsed extension whose `deprecatedby` equals X's name is
moved to the end of the list (immediately after X); when no entry matches,
the list is X appended to the previous entries. -/
theorem C4_deprecation_first_match_moved :
    (∀ (extensions : List VkbBuildExtension) (extension : VkbBuildExtension) (i : Nat)
      (hi : i < extensions.length),
      (extensions ++ [extension]).findIdx? (fun e => e.deprecatedby == extension.name) =
        some i →
      vkbAppendExtensionWithDeprecationFix extensions extension =
        extensions.eraseIdx i ++ [extension, extensions.get ⟨i, hi⟩]) ∧
    (∀ (extensions : List VkbBuildExtension) (extension : VkbBuildExtension),
      (extensions ++ [extension]).findIdx? (fun e => e.deprecatedby == extension.name) =
        none →
      vkbAppendExtensionWithDeprecationFix extensions extension = extensions ++ [extension]) := by
  constructor
  · intro extensions extension i hi hfind
    simp only [vkbAppendExtensionWithDeprecationFix]
    rw [hfind]
    dsimp only
    have hget : (extensions ++ [extension]).getD i default = extensions.get ⟨i, hi⟩ := by
      rw [List.getD_eq_getElem?_getD, List.getElem?_append_left hi]
      simp [List.getElem?_eq_getElem hi]
    rw [hget, List.append_assoc, List.eraseIdx_append_of_lt_length hi]
    simp
  · intro extensions extension hfind
    simp only [vkbAppendExtensionWithDeprecationFix]
    rw [hfind]

/-- Claim C4 witness for the amended statement, at the concrete input of
the counterexample (first match at index 0). -/
theorem C4_deprecation_first_match_moved_witness :
    ([exExtD1, exExtD2] ++ [exExtX]).findIdx? (fun e => e.deprecatedby == exExtX.name) =
      some 0 ∧
    vkbAppendExtensionWithDeprecationFix [exExtD1, exExtD2] exExtX =
      [exExtD1, exExtD2].eraseIdx 0 ++
        [exExtX, [exExtD1, exExtD2].get ⟨0, by decide⟩] :=
  ⟨by decide,
    C4_deprecation_first_match_moved.1 [exExtD1, exExtD2] exExtX 0 (by decide) (by decide)⟩

/-! ## C9: bitpos to hex -/

/-- Claim C9: for `0 ≤ b ≤ 63`, a bit position below 32 is emitted as the
8-hex-digit literal of `1 << b`, and a bit position in `[32, 63]` as the
VC6-safe cast-and-shift form whose two 8-hex-digit halves are the upper and
lower 32 bits of `1 << b`. -/
theorem C9_bitpos_hex (b : Nat) (T : String) (hb : b ≤ 63) :
    (b < 32 → vkbBuildBitPosToHexStringEx b T = "0x" ++ hex8 (2 ^ b)) ∧
    (32 ≤ b → vkbBuildBitPosToHexStringEx b T =
      "(" ++ T ++ ")(((" ++ T ++ ")0x" ++ hex8 (2 ^ b / 2 ^ 32 % 2 ^ 32) ++
        " << 32) | (0x" ++ hex8 (2 ^ b % 2 ^ 32) ++ "))") := by
  have hshift : (1 <<< b) = 2 ^ b := Nat.one_shiftLeft b
  constructor
  · intro h
    unfold vkbBuildBitPosToHexStringEx
    rw [if_pos h, hshift]
  · intro h
    unfold vkbBuildBitPosToHexStringEx
    rw [if_neg (by omega), hshift]

/-- Claim C9 witness: `bitpos = 32` yields
`(T)(((T)0x00000001 << 32) | (0x00000000))`, and `bitpos = 5` yields
`0x00000020`. -/
theorem C9_bitpos_hex_witness :
    (32 : Nat) ≤ 63 ∧
    vkbBuildBitPosToHexStringEx 32 "T" =
      "(" ++ "T" ++ ")(((" ++ "T" ++ ")0x" ++ hex8 (2 ^ 32 / 2 ^ 32 % 2 ^ 32) ++
        " << 32) | (0x" ++ hex8 (2 ^ 32 % 2 ^ 32) ++ "))" ∧
    vkbBuildBitPosToHexStringEx 32 "T" = "(T)(((T)0x00000001 << 32) | (0x00000000))" ∧
    vkbBuildBitPosToHexStringEx 5 "T" = "0x" ++ hex8 (2 ^ 5) ∧
    vkbBuildBitPosToHexStringEx 5 "T" = "0x00000020" :=
  ⟨by decide, (C9_bitpos_hex 32 "T" (by decide)).2 (by decide), by decide,
    (C9_bitpos_hex 5 "T" (by decide)).1 (by decide), by decide⟩

/-! ## C7: the global emitted-set bookkeeping -/

/-- A `#define`-style require enum (explicit value, no `extends`). -/
def exRequireEnumFoo : VkbBuildRequireEnum :=
  { name := "VK_FOO", aliasName := "", value := "1", extendsAttr := "", bitpos := "",
    extnumber := "", offset := "", dir := "" }

def exExtE1 : VkbBuildExtension :=
  { name := "VK_E1", number := "1", type := "", platform := "", supported := "vulkan",
    promotedto := "", deprecatedby := "",
    requires := [{ types := [], enums := [exRequireEnumFoo], commands := [] }] }

def exExtE2 : VkbBuildExtension :=
  { name := "VK_E2", number := "2", type := "", platform := "", supported := "vulkan",
    promotedto := "", deprecatedby := "",
    requires := [{ types := [], enums := [exRequireEnumFoo], commands := [] }] }

/-- A registry in which two extensions both require the `#define`-style
enum `VK_FOO` with an explicit value. -/
def exCtxDoubleDefine : VkbBuild :=
  { platforms := [], tags := [], types := [], enums := [], commands := [], features := [],
    extensions := [exExtE1, exExtE2] }

/-- Claim C7 (evaluation at the failing input): on a registry where two
extensions each require the `#define`-style enum `VK_FOO` with an explicit
value, a full generator run records `VK_FOO` in the emitted-defines set
twice — `vkbBuildGenerateCode_C_RequireDefineEnums` re-emits and re-marks
it without consulting `HasOutputDefine`, so the `assert(!HasOutputDefine)`
inside `MarkDefineAsOutput` fires, and the emitted code carries the
`#define` twice. -/
theorem C7_require_define_assert_violation :
    (vkbBuildGenerateCode_C_Main exCtxDoubleDefine 5).map (fun r => r.1.outputDefines) =
      some ["VK_FOO", "VK_FOO"] ∧
    ¬ (∀ defines, (vkbBuildGenerateCode_C_Main exCtxDoubleDefine 5).map
        (fun r => r.1.outputDefines) = some defines → defines.Nodup) ∧
    (vkbBuildGenerateCode_C_Main exCtxDoubleDefine 5).map (fun r => r.2) =
      some "\n#define VK_E1 1\n#define VK_FOO 1\n\n\n#define VK_E2 1\n#define VK_FOO 1\n\n" := by
  refine ⟨by decide, fun h => ?_, by decide⟩
  have := h ["VK_FOO", "VK_FOO"] (by decide)
  simp at this

/-! ## C8: revision derivation -/

/-- `firstOccAux` finds a single separator right after a block that does
not contain it. -/
theorem firstOccAux_single (c : Char) (b : List Char) :
    ∀ a : List Char, c ∉ a → firstOccAux [c] (a ++ c :: b) = some a.length := by
  intro a
  induction a with
  | nil =>
    intro _
    simp [firstOccAux, leadMatch]
  | cons x xs ih =>
    intro hmem
    have hx : ¬(c = x) := fun h => hmem (by simp [h])
    have hxs : c ∉ xs := fun h => hmem (by simp [h])
    simp only [List.cons_append, firstOccAux, leadMatch]
    rw [if_neg (by simp [hx])]
    simp only [List.append_eq]
    rw [ih hxs]
    simp

/-- `std::string::find` of a single separator character. -/
theorem strFind_single (c : Char) (a b : List Char) (h : c ∉ a) :
    strFind (a ++ c :: b) [c] 0 = some a.length := by
  unfold strFind
  rw [if_pos (Nat.zero_le _)]
  simp [firstOccAux_single c b a h]

/-- Dropping past a decomposed separator. -/
theorem drop_append_cons (a : List Char) (c : Char) (b : List Char) :
    (a ++ c :: b).drop (a.length + 1) = b := by
  simp

/-- Taking exactly the block before a decomposed separator. -/
theorem take_append_cons (a : List Char) (c : Char) (b : List Char) :
    (a ++ c :: b).take a.length = a := by
  simp

/-- Claim C8: the revision is 0 when no previous output file exists or its
content has no `vkbind - v` banner; when a banner with a well-formed
`<maj>.<min>.<hdr>.<rev> ` segment is present, the revision is the previous
revision plus one if `<maj>.<min>.<hdr>` equals the freshly computed Vulkan
version, and 0 otherwise. -/
theorem C8_revision (context : VkbBuild) (v : String)
    (hv : vkbBuildGetVulkanVersion context = some v) :
    (vkbBuildGenerateCode_C_Revision context none = some "0") ∧
    (∀ content : String, strFind content.data ("vkbind - v".data) 0 = none →
      vkbBuildGenerateCode_C_Revision context (some content) = some "0") ∧
    (∀ (content : String) (pos : Nat) (maj minor hdr rev rest : List Char),
      strFind content.data ("vkbind - v".data) 0 = some pos →
      content.data.drop (pos + "vkbind - v".length) =
        maj ++ '.' :: (minor ++ '.' :: (hdr ++ '.' :: (rev ++ ' ' :: rest))) →
      '.' ∉ maj → '.' ∉ minor → '.' ∉ hdr → ' ' ∉ rev →
      vkbBuildGenerateCode_C_Revision context (some content) =
        some (if v.data = maj ++ '.' :: (minor ++ '.' :: hdr)
          then toString (atoiChars rev + 1) else "0")) := by
  refine ⟨rfl, ?_, ?_⟩
  · intro content h
    simp only [vkbBuildGenerateCode_C_Revision, h]
  · intro content pos maj minor hdr rev rest h1 h2 hm1 hm2 hm3 hm4
    simp only [vkbBuildGenerateCode_C_Revision, h1, hv, h2]
    rw [strFind_single '.' maj _ hm1]
    simp only [take_append_cons, drop_append_cons]
    rw [strFind_single '.' minor _ hm2]
    simp only [take_append_cons, drop_append_cons]
    rw [strFind_single '.' hdr _ hm3]
    simp only [take_append_cons, drop_append_cons]
    rw [strFind_single ' ' rev _ hm4]
    simp only [take_append_cons, drop_append_cons]
    simp only [List.cons_append, List.append_assoc]
    split <;> rfl

/-- The `VK_HEADER_VERSION` define of the witness registry. -/
def exHeaderVersionType : VkbBuildType :=
  { type := "", name := "VK_HEADER_VERSION", category := "define", aliasName := "",
    requires := "", bitvalues := "", parent := "", structData := [],
    funcpointer := default, verbatimValue := "#define VK_HEADER_VERSION 250" }

def exFeature13 : VkbBuildFeature :=
  { api := "vulkan", name := "VK_VERSION_1_3", number := "1.3", requires := [] }

def exCtxVersion : VkbBuild :=
  { platforms := [], tags := [], types := [exHeaderVersionType], enums := [],
    commands := [], features := [exFeature13], extensions := [] }

/-- Claim C8 witness: Scenario F — previous banner `vkbind - v1.3.250.7 `
with current version `1.3.250` gives revision 8. -/
theorem C8_revision_witness :
    vkbBuildGetVulkanVersion exCtxVersion = some "1.3.250" ∧
    vkbBuildGenerateCode_C_Revision exCtxVersion
      (some "/* vkbind - v1.3.250.7 - generated */") = some "8" := by
  have h := (C8_revision exCtxVersion "1.3.250" (by decide)).2.2
    "/* vkbind - v1.3.250.7 - generated */" 3 "1".data "3".data "250".data "7".data
    "- generated */".data (by decide) (by decide) (by decide) (by decide) (by decide)
    (by decide)
  refine ⟨by decide, ?_⟩
  rw [h]
  decide

/-! ## C10: `vkbReplaceAll` -/

theorem leadMatch_nil_right (from_ : List Char) (h : from_ ≠ []) :
    leadMatch from_ [] = false := by
  cases from_ with
  | nil => exact absurd rfl h
  | cons a l => rfl

theorem leadMatch_length (pat : List Char) :
    ∀ s : List Char, leadMatch pat s = true → pat.length ≤ s.length := by
  induction pat with
  | nil => intro s _; simp
  | cons p ps ih =>
    intro s hm
    cases s with
    | nil => simp [leadMatch] at hm
    | cons c cs =>
      simp only [leadMatch, Bool.and_eq_true] at hm
      simpa using ih cs hm.2

theorem specReplaceAllAux_nil (from_ to_ : List Char) (n : Nat) :
    specReplaceAllAux from_ to_ n [] = [] := by
  cases n with
  | zero => rfl
  | succ n =>
    by_cases hf : from_ = []
    · simp [specReplaceAllAux, hf]
    · simp [specReplaceAllAux, hf, leadMatch_nil_right from_ hf]

theorem specReplaceAllAux_stable (from_ to_ : List Char) :
    ∀ (n m : Nat) (s : List Char), s.length ≤ n → s.length ≤ m →
      specReplaceAllAux from_ to_ n s = specReplaceAllAux from_ to_ m s := by
  intro n
  induction n with
  | zero =>
    intro m s hn _
    have : s = [] := List.length_eq_zero.mp (Nat.le_zero.mp hn)
    subst this
    rw [specReplaceAllAux_nil, specReplaceAllAux_nil]
  | succ n ih =>
    intro m s hn hm
    cases s with
    | nil => rw [specReplaceAllAux_nil, specReplaceAllAux_nil]
    | cons c cs =>
      have hn' : cs.length + 1 ≤ n + 1 := by simpa using hn
      cases m with
      | zero => simp at hm
      | succ m =>
        have hm' : cs.length + 1 ≤ m + 1 := by simpa using hm
        by_cases hf : from_ = []
        · simp [specReplaceAllAux, hf]
        · have hlen : 0 < from_.length := List.length_pos.mpr hf
          by_cases hlead : leadMatch from_ (c :: cs) = true
          · have hfl : from_.length ≤ cs.length + 1 := by
              simpa using leadMatch_length from_ _ hlead
            simp only [specReplaceAllAux, hf, if_false, hlead, if_true]
            rw [ih m ((c :: cs).drop from_.length)
              (by simp only [List.length_drop, List.length_cons]; omega)
              (by simp only [List.length_drop, List.length_cons]; omega)]
          · simp only [specReplaceAllAux, hf, if_false, hlead]
            simp only [Bool.false_eq_true, if_false]
            rw [ih m cs (by omega) (by omega)]

theorem specReplaceAll_cons_nomatch (from_ to_ : List Char) (c : Char) (cs : List Char)
    (hf : from_ ≠ []) (hlead : leadMatch from_ (c :: cs) = false) :
    specReplaceAll from_ to_ (c :: cs) = c :: specReplaceAll from_ to_ cs := by
  simp only [specReplaceAll, List.length_cons, specReplaceAllAux, hf, if_false, hlead]
  simp

theorem specReplaceAll_match (from_ to_ s : List Char) (hf : from_ ≠ [])
    (hlead : leadMatch from_ s = true) :
    specReplaceAll from_ to_ s = to_ ++ specReplaceAll from_ to_ (s.drop from_.length) := by
  have hlen : 0 < from_.length := List.length_pos.mpr hf
  cases s with
  | nil => rw [leadMatch_nil_right from_ hf] at hlead; simp at hlead
  | cons c cs =>
    simp only [specReplaceAll, List.length_cons, specReplaceAllAux, hf, if_false, hlead,
      if_true]
    congr 1
    exact specReplaceAllAux_stable from_ to_ (cs.length) ((c :: cs).drop from_.length).length
      ((c :: cs).drop from_.length) (by simp; omega) le_rfl

theorem specReplaceAll_of_firstOcc_none (from_ to_ : List Char) (hf : from_ ≠ []) :
    ∀ t : List Char, firstOccAux from_ t = none → specReplaceAll from_ to_ t = t := by
  intro t
  induction t with
  | nil => intro _; simp [specReplaceAll, specReplaceAllAux_nil]
  | cons c cs ih =>
    intro hocc
    simp only [firstOccAux] at hocc
    by_cases hlead : leadMatch from_ (c :: cs) = true
    · rw [if_pos hlead] at hocc; simp at hocc
    · rw [if_neg hlead] at hocc
      have hcs : firstOccAux from_ cs = none := by
        cases h : firstOccAux from_ cs with
        | none => rfl
        | some k => rw [h] at hocc; simp at hocc
      rw [specReplaceAll_cons_nomatch from_ to_ c cs hf (by simpa using hlead), ih hcs]

theorem specReplaceAll_of_firstOcc_some (from_ to_ : List Char) (hf : from_ ≠ []) :
    ∀ (t : List Char) (k : Nat), firstOccAux from_ t = some k →
      specReplaceAll from_ to_ t =
        t.take k ++ to_ ++ specReplaceAll from_ to_ (t.drop (k + from_.length)) ∧
      k + from_.length ≤ t.length := by
  intro t
  induction t with
  | nil =>
    intro k hocc
    rw [show firstOccAux from_ [] = none by
      simp [firstOccAux, leadMatch_nil_right from_ hf]] at hocc
    cases hocc
  | cons c cs ih =>
    intro k hocc
    simp only [firstOccAux] at hocc
    by_cases hlead : leadMatch from_ (c :: cs) = true
    · rw [if_pos hlead] at hocc
      cases hocc
      refine ⟨?_, ?_⟩
      · simpa using specReplaceAll_match from_ to_ (c :: cs) hf hlead
      · simpa using leadMatch_length from_ (c :: cs) hlead
    · rw [if_neg hlead] at hocc
      cases h : firstOccAux from_ cs with
      | none => rw [h] at hocc; simp at hocc
      | some k0 =>
        rw [h] at hocc
        simp only [Option.map_some'] at hocc
        cases hocc
        obtain ⟨hspec, hle⟩ := ih k0 h
        refine ⟨?_, by simp; omega⟩
        rw [specReplaceAll_cons_nomatch from_ to_ c cs hf (by simpa using hlead), hspec]
        simp [Nat.succ_add, List.drop_succ_cons]

theorem vkbReplaceAllAux_correct (s from_ to_ : List Char) (hf : from_ ≠ []) :
    ∀ (fuel lastPos : Nat) (acc : List Char), lastPos ≤ s.length →
      s.length - lastPos < fuel →
      vkbReplaceAllAux fuel s from_ to_ acc lastPos =
        some (acc ++ specReplaceAll from_ to_ (s.drop lastPos)) := by
  intro fuel
  induction fuel with
  | zero => intro lastPos acc _ h; omega
  | succ fuel ih =>
    intro lastPos acc hle hfuel
    have hlen : 0 < from_.length := List.length_pos.mpr hf
    simp only [vkbReplaceAllAux, strFind, if_pos hle]
    cases hocc : firstOccAux from_ (s.drop lastPos) with
    | none =>
      simp only [Option.map_none']
      rw [specReplaceAll_of_firstOcc_none from_ to_ hf _ hocc]
    | some k =>
      simp only [Option.map_some']
      obtain ⟨hspec, hk⟩ := specReplaceAll_of_firstOcc_some from_ to_ hf _ k hocc
      have hdroplen : (s.drop lastPos).length = s.length - lastPos := by simp
      have hnew : k + lastPos + from_.length ≤ s.length := by omega
      have hrec := ih (k + lastPos + from_.length) (acc ++ (s.drop lastPos).take (k + lastPos - lastPos) ++ to_) hnew (by omega)
      rw [hrec]
      congr 1
      have hdd : s.drop (k + lastPos + from_.length) = (s.drop lastPos).drop (k + from_.length) := by
        rw [List.drop_drop]
        congr 1
        omega
      rw [hdd, hspec]
      simp only [show k + lastPos - lastPos = k by omega]
      simp [List.append_assoc]

theorem vkbReplaceAllAux_empty_from (s to_ : List Char) :
    ∀ (fuel lastPos : Nat) (acc : List Char), lastPos ≤ s.length →
      vkbReplaceAllAux fuel s [] to_ acc lastPos = none := by
  intro fuel
  induction fuel with
  | zero => intro _ _ _; rfl
  | succ fuel ih =>
    intro lastPos acc hle
    have hocc : firstOccAux [] (s.drop lastPos) = some 0 := by
      cases s.drop lastPos <;> simp [firstOccAux, leadMatch]
    simp only [vkbReplaceAllAux, strFind, if_pos hle, hocc, Option.map_some']
    simpa using ih lastPos (acc ++ (s.drop lastPos).take (lastPos - lastPos) ++ to_) hle

/-- Claim C10: for a non-empty `from_`, the substitution loop of
`vkbReplaceAll` terminates (any fuel beyond the source length suffices, and
in particular the loop really exits) and the result replaces every
left-to-right non-overlapping occurrence of `from_` by `to_`
(`specReplaceAll`); for the empty `from_` the loop never terminates — the
fueled model returns `none` for every amount of fuel. -/
theorem C10_replaceAll_correct :
    (∀ s from_ to_ : List Char, from_ ≠ [] →
      (∀ fuel, s.length < fuel →
        vkbReplaceAllAux fuel s from_ to_ [] 0 = some (specReplaceAll from_ to_ s)) ∧
      vkbReplaceAll s from_ to_ = specReplaceAll from_ to_ s) ∧
    (∀ (s to_ acc : List Char) (fuel lastPos : Nat), lastPos ≤ s.length →
      vkbReplaceAllAux fuel s [] to_ acc lastPos = none) := by
  refine ⟨?_, ?_⟩
  · intro s from_ to_ hf
    have hmain : ∀ fuel, s.length < fuel →
        vkbReplaceAllAux fuel s from_ to_ [] 0 = some (specReplaceAll from_ to_ s) := by
      intro fuel hfuel
      have := vkbReplaceAllAux_correct s from_ to_ hf fuel 0 [] (Nat.zero_le _) (by omega)
      simpa using this
    refine ⟨hmain, ?_⟩
    unfold vkbReplaceAll
    rw [hmain (s.length + 1) (by omega)]
    rfl
  · intro s to_ acc fuel lastPos hle
    exact vkbReplaceAllAux_empty_from s to_ fuel lastPos acc hle

/-- Claim C10 witness: replacing `"bc"` by `"X"` in `"abcabc"` terminates
with `"aXaX"`, and the loop with the empty pattern returns no result at
fuel 3. -/
theorem C10_replaceAll_correct_witness :
    ("bc".data ≠ ([] : List Char)) ∧
    vkbReplaceAll "abcabc".data "bc".data "X".data =
      specReplaceAll "bc".data "X".data "abcabc".data ∧
    (vkbReplaceAll "abcabc".data "bc".data "X".data).asString = "aXaX" ∧
    vkbReplaceAllAux 3 "abc".data [] "X".data [] 0 = none :=
  ⟨by decide,
    (C10_replaceAll_correct.1 "abcabc".data "bc".data "X".data (by decide)).2,
    by decide,
    C10_replaceAll_correct.2 "abc".data "X".data [] 3 0 (by decide)⟩

/-! ## C6: device-level classification -/

/-- A strict handle descendant has a `handle` registry entry itself. -/
theorem HandleAncestor.isHandle {context : VkbBuild} {P C : String}
    (h : HandleAncestor context P C) : isHandleTypeName context C := by
  cases h with
  | direct C t hne hfind hcat hpar => exact ⟨t, hfind, hcat⟩
  | step C t hne hfind hcat hpar hanc => exact ⟨t, hfind, hcat⟩

/-- `vkbBuildIsTypeChildOf` computes exactly the `HandleAncestor`
relation (whenever it terminates). -/
theorem isTypeChildOf_iff (context : VkbBuild) :
    ∀ (fuel : Nat) (P C : String) (b : Bool),
      vkbBuildIsTypeChildOf context fuel P C = some b →
      (b = true ↔ HandleAncestor context P C) := by
  intro fuel
  induction fuel with
  | zero => intro P C b h; simp [vkbBuildIsTypeChildOf] at h
  | succ fuel ih =>
    intro P C b h
    simp only [vkbBuildIsTypeChildOf] at h
    by_cases hpc : P = C
    · rw [if_pos hpc] at h
      injection h with hb
      subst hb
      simp only [Bool.false_eq_true, false_iff]
      intro ha
      cases ha with
      | direct _ t hne _ _ _ => exact hne hpc.symm
      | step _ t hne _ _ _ _ => exact hne hpc.symm
    · rw [if_neg hpc] at h
      cases hfind : context.types.find? (fun t => t.name == C) with
      | none =>
        rw [hfind] at h
        injection h with hb
        subst hb
        simp only [Bool.false_eq_true, false_iff]
        intro ha
        cases ha with
        | direct _ t hne hfind2 _ _ => rw [hfind] at hfind2; cases hfind2
        | step _ t hne hfind2 _ _ _ => rw [hfind] at hfind2; cases hfind2
      | some t =>
        rw [hfind] at h
        dsimp only at h
        by_cases hcat : t.category = "handle"
        · rw [if_pos hcat] at h
          by_cases hpar : t.parent = P
          · rw [if_pos hpar] at h
            injection h with hb
            subst hb
            simp only [true_iff]
            exact HandleAncestor.direct C t (fun hc => hpc hc.symm) hfind hcat hpar
          · rw [if_neg hpar] at h
            have hih := ih P t.parent b h
            constructor
            · intro hb
              exact HandleAncestor.step C t (fun hc => hpc hc.symm) hfind hcat hpar
                (hih.mp hb)
            · intro ha
              cases ha with
              | direct _ t2 hne hfind2 hcat2 hpar2 =>
                rw [hfind] at hfind2
                injection hfind2 with ht
                subst ht
                exact absurd hpar2 hpar
              | step _ t2 hne hfind2 hcat2 hpar2 hanc =>
                rw [hfind] at hfind2
                injection hfind2 with ht
                subst ht
                exact hih.mpr hanc
        · rw [if_neg hcat] at h
          injection h with hb
          subst hb
          simp only [Bool.false_eq_true, false_iff]
          intro ha
          cases ha with
          | direct _ t2 hne hfind2 hcat2 _ =>
            rw [hfind] at hfind2
            injection hfind2 with ht
            subst ht
            exact hcat hcat2
          | step _ t2 hne hfind2 hcat2 _ _ =>
            rw [hfind] at hfind2
            injection hfind2 with ht
            subst ht
            exact hcat hcat2

/-- Claim C6: a command is device-level exactly when its first parameter's
type is `VkDevice` or a transitive handle child of `VkDevice`; an aliased
command inherits the classification of its alias target; a command with no
parameters, or whose first parameter's type is not a handle, is not
device-level; and no type is a child of itself.  (The registry is assumed
to declare `VkDevice` itself as a handle.) -/
theorem C6_device_level_classification (context : VkbBuild)
    (hVkDevice : isHandleTypeName context "VkDevice") :
    (∀ (fuel : Nat) (command : VkbBuildCommand) (b : Bool), command.aliasName = "" →
      vkbBuildIsDeviceLevelCommand context (fuel + 1) command = some b →
      (b = true ↔ ∃ p, command.parameters.head? = some p ∧
        (p.type = "VkDevice" ∨ HandleAncestor context "VkDevice" p.type))) ∧
    (∀ (fuel : Nat) (command aliased : VkbBuildCommand), command.aliasName ≠ "" →
      context.commands.find? (fun c => c.name == command.aliasName) = some aliased →
      vkbBuildIsDeviceLevelCommand context (fuel + 1) command =
        vkbBuildIsDeviceLevelCommand context fuel aliased) ∧
    (∀ (fuel : Nat) (command : VkbBuildCommand), command.aliasName = "" →
      command.parameters = [] →
      vkbBuildIsDeviceLevelCommand context (fuel + 1) command = some false) ∧
    (∀ (fuel : Nat) (command : VkbBuildCommand) (p : VkbBuildFunctionParameter) (b : Bool),
      command.aliasName = "" → command.parameters.head? = some p →
      ¬ isHandleTypeName context p.type →
      vkbBuildIsDeviceLevelCommand context (fuel + 1) command = some b → b = false) ∧
    (∀ (fuel : Nat) (T : String),
      vkbBuildIsTypeChildOf context (fuel + 1) T T = some false) := by
  have hmain : ∀ (fuel : Nat) (command : VkbBuildCommand) (b : Bool),
      command.aliasName = "" →
      vkbBuildIsDeviceLevelCommand context (fuel + 1) command = some b →
      (b = true ↔ ∃ p, command.parameters.head? = some p ∧
        (p.type = "VkDevice" ∨ HandleAncestor context "VkDevice" p.type)) := by
    intro fuel command b halias h
    simp only [vkbBuildIsDeviceLevelCommand, halias, if_true] at h
    cases hp : command.parameters with
    | nil =>
      rw [hp] at h
      dsimp only at h
      injection h with hb
      subst hb
      simp [hp]
    | cons p ps =>
      rw [hp] at h
      dsimp only at h
      by_cases hdev : p.type = "VkDevice"
      · rw [if_pos hdev] at h
        injection h with hb
        subst hb
        simp only [hp, List.head?_cons, true_iff]
        exact ⟨p, rfl, Or.inl hdev⟩
      · rw [if_neg hdev] at h
        have hih := isTypeChildOf_iff context (fuel + 1) "VkDevice" p.type b h
        rw [hih]
        constructor
        · intro ha
          exact ⟨p, by simp [hp], Or.inr ha⟩
        · intro hex
          obtain ⟨q, hq, hcase⟩ := hex
          simp only [hp, List.head?_cons, Option.some_inj] at hq
          subst hq
          cases hcase with
          | inl hqdev => exact absurd hqdev hdev
          | inr hanc => exact hanc
  refine ⟨hmain, ?_, ?_, ?_, ?_⟩
  · intro fuel command aliased halias hfind
    simp only [vkbBuildIsDeviceLevelCommand, halias, hfind, if_false]
  · intro fuel command halias hp
    simp [vkbBuildIsDeviceLevelCommand, halias, hp]
  · intro fuel command p b halias hp hnothandle h
    by_contra hb
    have hb' : b = true := by
      cases b
      · exact absurd rfl hb
      · rfl
    have hex := (hmain fuel command b halias h).mp hb'
    obtain ⟨q, hq, hcase⟩ := hex
    rw [hp] at hq
    injection hq with hq
    subst hq
    cases hcase with
    | inl hqdev => exact hnothandle (hqdev ▸ hVkDevice)
    | inr hanc => exact hnothandle hanc.isHandle
  · intro fuel T
    simp [vkbBuildIsTypeChildOf]

/-! ## C5: the safe-global loader table -/

/-- What `findIdx?` (as used by the lookup helpers) guarantees about the
index it returns. -/
theorem findIdx?_some_getD {α : Type _} (p : α → Bool) (d : α) :
    ∀ (l : List α) (i j : Nat), l.findIdx? p i = some j →
      i ≤ j ∧ j - i < l.length ∧ p (l.getD (j - i) d) = true := by
  intro l
  induction l with
  | nil => intro i j h; simp [List.findIdx?] at h
  | cons a as ih =>
    intro i j h
    rw [List.findIdx?_cons] at h
    by_cases hp : p a = true
    · rw [if_pos hp] at h
      injection h with hj
      subst hj
      simpa using hp
    · rw [if_neg hp] at h
      obtain ⟨hle, hlt, hpd⟩ := ih (i + 1) j h
      refine ⟨by omega, by simp; omega, ?_⟩
      have hji : j - i = (j - (i + 1)) + 1 := by omega
      rw [hji]
      simpa using hpd

/-- The command found by `vkbBuildFindCommandByName` carries the searched
name. -/
theorem findCommandByName_name (context : VkbBuild) (n : String) (i : Nat)
    (h : vkbBuildFindCommandByName context n = some i) : (commandAt context i).name = n := by
  unfold vkbBuildFindCommandByName at h
  obtain ⟨-, -, hp⟩ := findIdx?_some_getD (fun c => c.name == n) default context.commands 0 i h
  simp only [Nat.sub_zero] at hp
  simpa [commandAt] using hp

/-- Join with a separator (the shape the emitted table text takes). -/
def sepJoin (sep : String) : List String → String
  | [] => ""
  | [x] => x
  | x :: xs => x ++ sep ++ sepJoin sep xs

theorem sepJoin_snoc (sep x : String) (l : List String) :
    sepJoin sep (l ++ [x]) = if l = [] then x else sepJoin sep l ++ sep ++ x := by
  induction l with
  | nil => simp [sepJoin]
  | cons y ys ih =>
    cases ys with
    | nil => simp [sepJoin]
    | cons z zs =>
      rw [show (y :: z :: zs) ++ [x] = y :: ((z :: zs) ++ [x]) from rfl]
      rw [show sepJoin sep (y :: ((z :: zs) ++ [x])) =
        y ++ sep ++ sepJoin sep ((z :: zs) ++ [x]) from rfl]
      rw [ih]
      rw [if_neg (by simp), if_neg (by simp)]
      rw [show sepJoin sep (y :: z :: zs) = y ++ sep ++ sepJoin sep (z :: zs) from rfl]
      simp [String.append_assoc]

/-- A command name eligible for the safe-global table: it resolves, and the
resolved command is not instance-level. -/
def SafeGlobalEligible (context : VkbBuild) (fuel : Nat) (n : String) : Prop :=
  ∃ i, vkbBuildFindCommandByName context n = some i ∧
    vkbBuildIsInstanceLevelCommand context fuel (commandAt context i) = some false

/-- Invariant carried by the safe-global emission loop. -/
def SafeGlobalAcc (context : VkbBuild) (fuel : Nat) (acc : String × List String) : Prop :=
  ∃ rest, acc.2 = "vkGetInstanceProcAddr" :: rest ∧ acc.2.Nodup ∧
    acc.1 = sepJoin "\n    " (rest.map safeGlobalStmt) ∧
    ∀ n ∈ rest, SafeGlobalEligible context fuel n

theorem safeGlobalStep_spec (context : VkbBuild) (fuel : Nat) (acc acc' : String × List String)
    (rc : VkbBuildRequireCommand) (h : safeGlobalStep context fuel acc rc = some acc') :
    (SafeGlobalAcc context fuel acc → SafeGlobalAcc context fuel acc') ∧
    (acc'.2 = acc.2 ∨ (acc'.2 = acc.2 ++ [rc.name] ∧ rc.name ∉ acc.2)) ∧
    (SafeGlobalEligible context fuel rc.name → rc.name ∈ acc'.2) := by
  unfold safeGlobalStep at h
  cases hfind : vkbBuildFindCommandByName context rc.name with
  | none =>
    rw [hfind] at h
    injection h with hacc
    subst hacc
    refine ⟨id, Or.inl rfl, ?_⟩
    intro helig
    obtain ⟨i, hfind2, -⟩ := helig
    rw [hfind] at hfind2
    cases hfind2
  | some iCommand =>
    rw [hfind] at h
    dsimp only at h
    by_cases hmem : rc.name ∈ acc.2
    · rw [if_pos hmem] at h
      injection h with hacc
      subst hacc
      exact ⟨id, Or.inl rfl, fun _ => hmem⟩
    · rw [if_neg hmem] at h
      cases hinst : vkbBuildIsInstanceLevelCommand context fuel (commandAt context iCommand) with
      | none => rw [hinst] at h; cases h
      | some b =>
        rw [hinst] at h
        cases b with
        | true =>
          injection h with hacc
          subst hacc
          refine ⟨id, Or.inl rfl, ?_⟩
          intro helig
          obtain ⟨i, hfind2, hinst2⟩ := helig
          rw [hfind] at hfind2
          injection hfind2 with hi
          subst hi
          rw [hinst] at hinst2
          cases hinst2
        | false =>
          injection h with hacc
          subst hacc
          have hname : (commandAt context iCommand).name = rc.name :=
            findCommandByName_name context rc.name iCommand hfind
          refine ⟨?_, Or.inr ⟨rfl, hmem⟩, fun _ => by simp⟩
          intro hi
          obtain ⟨rest, hout, hnd, hcode, helig⟩ := hi
          refine ⟨rest ++ [rc.name], ?_, ?_, ?_, ?_⟩
          · simp [hout]
          · simp only [List.nodup_append, hout] at hnd ⊢
            simp only [hout] at hmem
            simp_all [List.disjoint_singleton]
          · simp only [hout, List.length_cons]
            simp only [List.map_append, List.map_cons, List.map_nil]
            rw [sepJoin_snoc]
            by_cases hrest : rest = []
            · subst hrest
              simp [hcode, sepJoin, hname]
            · have hlen : 0 < rest.length := List.length_pos.mpr hrest
              simp [hcode, hname, hrest, hlen, String.append_assoc]
          · intro n hn
            rcases List.mem_append.mp hn with hn | hn
            · exact helig n hn
            · rw [List.mem_singleton.mp hn]
              exact ⟨iCommand, hfind, hinst⟩

theorem safeGlobal_foldlM_spec (context : VkbBuild) (fuel : Nat) :
    ∀ (cmds : List VkbBuildRequireCommand) (acc acc' : String × List String),
      cmds.foldlM (safeGlobalStep context fuel) acc = some acc' →
      (SafeGlobalAcc context fuel acc → SafeGlobalAcc context fuel acc') ∧
      (∃ u, acc'.2 = acc.2 ++ u ∧ ∀ n ∈ u, ∃ rc ∈ cmds, rc.name = n) ∧
      (∀ n, (∃ rc ∈ cmds, rc.name = n) → SafeGlobalEligible context fuel n →
        n ∈ acc'.2) := by
  intro cmds
  induction cmds with
  | nil =>
    intro acc acc' h
    simp only [List.foldlM_nil] at h
    injection h with hacc
    subst hacc
    exact ⟨id, ⟨[], by simp⟩, by simp⟩
  | cons rc rcs ih =>
    intro acc acc' h
    rw [List.foldlM_cons] at h
    cases hstep : safeGlobalStep context fuel acc rc with
    | none => rw [hstep] at h; cases h
    | some acc1 =>
      rw [hstep] at h
      simp only [Option.bind_eq_bind, Option.some_bind] at h
      obtain ⟨hpres1, hmono1, helig1⟩ := safeGlobalStep_spec context fuel acc acc1 rc hstep
      obtain ⟨hpres2, ⟨u2, hu2, hu2src⟩, helig2⟩ := ih acc1 acc' h
      refine ⟨fun hi => hpres2 (hpres1 hi), ?_, ?_⟩
      · rcases hmono1 with h1 | ⟨h1, -⟩
        · refine ⟨u2, by rw [hu2, h1], ?_⟩
          intro n hn
          obtain ⟨rc0, hrc0, hname⟩ := hu2src n hn
          exact ⟨rc0, List.mem_cons_of_mem rc hrc0, hname⟩
        · refine ⟨[rc.name] ++ u2, by rw [hu2, h1, List.append_assoc], ?_⟩
          intro n hn
          rcases List.mem_append.mp hn with hn | hn
          · exact ⟨rc, List.mem_cons_self rc rcs, (List.mem_singleton.mp hn).symm⟩
          · obtain ⟨rc0, hrc0, hname⟩ := hu2src n hn
            exact ⟨rc0, List.mem_cons_of_mem rc hrc0, hname⟩
      · intro n hreq helig
        obtain ⟨rc0, hrc0, hname⟩ := hreq
        rcases List.mem_cons.mp hrc0 with hrc0 | hrc0
        · subst hrc0
          subst hname
          have := helig1 helig
          rw [hu2]
          exact List.mem_append_left u2 this
        · exact helig2 n ⟨rc0, hrc0, hname⟩ helig

/-- Flattening nested loops over a `flatMap`. -/
theorem foldlM_flatMap {α β σ : Type _} (g : α → List β) (f : σ → β → Option σ)
    (l : List α) (init : σ) :
    (l.flatMap g).foldlM f init = l.foldlM (fun s a => (g a).foldlM f s) init := by
  induction l generalizing init with
  | nil => rfl
  | cons a as ih =>
    rw [List.flatMap_cons, List.foldlM_append, List.foldlM_cons]
    cases h : (g a).foldlM f init with
    | none => rfl
    | some s1 =>
      simp only [Option.bind_eq_bind, Option.some_bind]
      exact ih s1

/-- All commands listed by the features' require blocks, in walk order. -/
def featureRequireCommandsFlat (context : VkbBuild) : List VkbBuildRequireCommand :=
  (context.features.flatMap (fun f => f.requires)).flatMap (fun r => r.commands)

theorem featureRequiresCommand_iff_flat (context : VkbBuild) (n : String) :
    featureRequiresCommand context n ↔
      ∃ rc ∈ featureRequireCommandsFlat context, rc.name = n := by
  simp [featureRequiresCommand, featureRequireCommandsFlat, List.mem_flatMap]
  tauto

theorem loadSafeGlobal_eq_flat (context : VkbBuild) (fuel : Nat) :
    vkbBuildGenerateCode_C_LoadSafeGlobalAPI context fuel =
      (featureRequireCommandsFlat context).foldlM (safeGlobalStep context fuel)
        ("", ["vkGetInstanceProcAddr"]) := by
  unfold vkbBuildGenerateCode_C_LoadSafeGlobalAPI featureRequireCommandsFlat
  rw [foldlM_flatMap, foldlM_flatMap]

/-- Claim C5 as amended: the safe-global table walks the *features only*
(extension-required commands never enter it); within that scope it contains
exactly the resolvable feature-required commands that are not
instance-level, each name once, `vkGetInstanceProcAddr` excluded, each
fetched through its `vkGetInstanceProcAddr(NULL, …)` statement, the
statements joined by the table separator. -/
theorem C5_safe_global_table (context : VkbBuild) (fuel : Nat) (code : String)
    (out : List String)
    (h : vkbBuildGenerateCode_C_LoadSafeGlobalAPI context fuel = some (code, out)) :
    ∃ rest, out = "vkGetInstanceProcAddr" :: rest ∧ out.Nodup ∧
      code = sepJoin "\n    " (rest.map safeGlobalStmt) ∧
      (∀ n, n ∈ rest ↔ (n ≠ "vkGetInstanceProcAddr" ∧ featureRequiresCommand context n ∧
        SafeGlobalEligible context fuel n)) := by
  rw [loadSafeGlobal_eq_flat] at h
  obtain ⟨hpres, ⟨u, hu, husrc⟩, helig⟩ :=
    safeGlobal_foldlM_spec context fuel (featureRequireCommandsFlat context)
      ("", ["vkGetInstanceProcAddr"]) (code, out) h
  have hacc : SafeGlobalAcc context fuel (code, out) :=
    hpres ⟨[], rfl, by simp, rfl, by simp⟩
  obtain ⟨rest, hout, hnd, hcode, heligall⟩ := hacc
  have hout2 : out = "vkGetInstanceProcAddr" :: rest := hout
  have hcode2 : code = sepJoin "\n    " (rest.map safeGlobalStmt) := hcode
  have hnd2 : out.Nodup := hnd
  have hu2 : out = "vkGetInstanceProcAddr" :: u := hu
  have hrest_u : rest = u := by
    have heq : "vkGetInstanceProcAddr" :: rest = "vkGetInstanceProcAddr" :: u := by
      rw [← hout2, hu2]
    injection heq
  have hseed_notin : "vkGetInstanceProcAddr" ∉ rest := by
    rw [hout2] at hnd2
    exact (List.nodup_cons.mp hnd2).1
  refine ⟨rest, hout2, hnd2, hcode2, ?_⟩
  intro n
  constructor
  · intro hn
    refine ⟨fun hne => hseed_notin (hne ▸ hn), ?_, heligall n hn⟩
    rw [featureRequiresCommand_iff_flat]
    exact husrc n (hrest_u ▸ hn)
  · intro hn
    obtain ⟨hne, hreq, helign⟩ := hn
    have hmem : n ∈ out :=
      helig n ((featureRequiresCommand_iff_flat context n).mp hreq) helign
    rw [hout2] at hmem
    rcases List.mem_cons.mp hmem with hmem | hmem
    · exact absurd hmem hne
    · exact hmem

/-! ## Loader fixtures for C5 / C6 -/

def mkHandleType (name parent : String) : VkbBuildType :=
  { type := "VK_DEFINE_HANDLE", name := name, category := "handle", aliasName := "",
    requires := "", bitvalues := "", parent := parent, structData := [],
    funcpointer := default, verbatimValue := "" }

def mkParam (t : String) : VkbBuildFunctionParameter :=
  { typeC := t, type := t, nameC := "p", name := "p", arrayEnum := "" }

def mkCommand (name : String) (params : List String) : VkbBuildCommand :=
  { returnTypeC := "void", returnType := "void", name := name,
    parameters := params.map mkParam, aliasName := "" }

def exTypeDevice : VkbBuildType := mkHandleType "VkDevice" "VkPhysicalDevice"

def exRequireLoader : VkbBuildRequire :=
  { types := [], enums := [],
    commands := [⟨"vkGetInstanceProcAddr"⟩, ⟨"vkCreateInstance"⟩,
      ⟨"vkDestroyInstance"⟩, ⟨"vkCmdDraw"⟩] }

def exFeatureLoader : VkbBuildFeature :=
  { api := "vulkan", name := "VK_VERSION_1_0", number := "1.0",
    requires := [exRequireLoader] }

/-- Handle chain `VkCommandBuffer → VkCommandPool → VkDevice →
VkPhysicalDevice → VkInstance`, four commands, one feature requiring all
four commands. -/
def exCtxLoader : VkbBuild :=
  { platforms := [], tags := [],
    types := [mkHandleType "VkInstance" "", mkHandleType "VkPhysicalDevice" "VkInstance",
      exTypeDevice, mkHandleType "VkCommandPool" "VkDevice",
      mkHandleType "VkCommandBuffer" "VkCommandPool"],
    enums := [],
    commands := [mkCommand "vkGetInstanceProcAddr" ["VkInstance"],
      mkCommand "vkCreateInstance" ["VkInstanceCreateInfo"],
      mkCommand "vkDestroyInstance" ["VkInstance"],
      mkCommand "vkCmdDraw" ["VkCommandBuffer"]],
    features := [exFeatureLoader],
    extensions := [] }

def exExtOnlyExtension : VkbBuildExtension :=
  { name := "VK_F", number := "1", type := "", platform := "", supported := "vulkan",
    promotedto := "", deprecatedby := "",
    requires := [{ types := [], enums := [], commands := [⟨"vkFoo"⟩] }] }

/-- A registry whose only global (non-instance-level) command is required
by an extension and by no feature. -/
def exCtxExtOnly : VkbBuild :=
  { platforms := [], tags := [], types := [],
    enums := [],
    commands := [mkCommand "vkFoo" []],
    features := [],
    extensions := [exExtOnlyExtension] }

/-- Claim C5 counterexample: `vkFoo` is a registry command required by an
extension and is not instance-level, yet the emitted safe-global table is
empty — `vkbBuildGenerateCode_C_LoadSafeGlobalAPI` never walks the
extensions, so the claim's "from every feature and every extension" fails. -/
theorem C5_safe_global_counterexample :
    vkbBuildGenerateCode_C_LoadSafeGlobalAPI exCtxExtOnly 2 =
      some ("", ["vkGetInstanceProcAddr"]) ∧
    (∃ e ∈ exCtxExtOnly.extensions, ∃ r ∈ e.requires, ∃ rc ∈ r.commands,
      rc.name = "vkFoo") ∧
    vkbBuildFindCommandByName exCtxExtOnly "vkFoo" = some 0 ∧
    vkbBuildIsInstanceLevelCommand exCtxExtOnly 2 (commandAt exCtxExtOnly 0) = some false ∧
    ("vkFoo" ∉ (["vkGetInstanceProcAddr"] : List String)) := by
  decide

/-- Claim C5 witness for the amended statement: in the loader fixture the
table holds exactly `vkCreateInstance` (global), while `vkDestroyInstance`
and `vkCmdDraw` are instance-level and `vkGetInstanceProcAddr` is the
excluded seed. -/
theorem C5_safe_global_table_witness :
    vkbBuildGenerateCode_C_LoadSafeGlobalAPI exCtxLoader 6 =
      some (safeGlobalStmt "vkCreateInstance",
        ["vkGetInstanceProcAddr", "vkCreateInstance"]) ∧
    (∃ rest, (["vkGetInstanceProcAddr", "vkCreateInstance"] : List String) =
        "vkGetInstanceProcAddr" :: rest ∧
      (["vkGetInstanceProcAddr", "vkCreateInstance"] : List String).Nodup ∧
      safeGlobalStmt "vkCreateInstance" = sepJoin "\n    " (rest.map safeGlobalStmt) ∧
      (∀ n, n ∈ rest ↔ (n ≠ "vkGetInstanceProcAddr" ∧
        featureRequiresCommand exCtxLoader n ∧ SafeGlobalEligible exCtxLoader 6 n))) :=
  ⟨by decide,
    C5_safe_global_table exCtxLoader 6 (safeGlobalStmt "vkCreateInstance")
      ["vkGetInstanceProcAddr", "vkCreateInstance"] (by decide)⟩

/-- Claim C6 witness: in the loader fixture (`VkDevice` a handle),
`vkCmdDraw` with first parameter `VkCommandBuffer` is device-level, and its
first parameter's type is a transitive handle child of `VkDevice`. -/
theorem C6_device_level_classification_witness :
    isHandleTypeName exCtxLoader "VkDevice" ∧
    vkbBuildIsDeviceLevelCommand exCtxLoader 6 (mkCommand "vkCmdDraw" ["VkCommandBuffer"]) =
      some true ∧
    (∃ p, (mkCommand "vkCmdDraw" ["VkCommandBuffer"]).parameters.head? = some p ∧
      (p.type = "VkDevice" ∨ HandleAncestor exCtxLoader "VkDevice" p.type)) :=
  have hh : isHandleTypeName exCtxLoader "VkDevice" := ⟨exTypeDevice, by decide, rfl⟩
  ⟨hh, by decide,
    ((C6_device_level_classification exCtxLoader hh).1 5
      (mkCommand "vkCmdDraw" ["VkCommandBuffer"]) true rfl (by decide)).mp rfl⟩

/-! ## C1: dependency resolver ordering -/

/-- The type found by `vkbBuildFindTypeByName` carries the searched name. -/
theorem findTypeByName_name (context : VkbBuild) (n : String) (i : Nat)
    (h : vkbBuildFindTypeByName context n = some i) : (typeAt context i).name = n := by
  unfold vkbBuildFindTypeByName at h
  obtain ⟨-, -, hp⟩ := findIdx?_some_getD (fun t => t.name == n) default context.types 0 i h
  simp only [Nat.sub_zero] at hp
  simpa [typeAt] using hp

/-- `DepOrdered` with an unbounded index and `getElem?`, more convenient
for the induction. -/
def DepOrderedAux (context : VkbBuild) (s : DepState) : Prop :=
  s.typeIndexes.Nodup ∧
  ∀ (j x : Nat), s.typeIndexes[j]? = some x →
    (∀ a ∈ typeDepIdxs context x, a ∈ s.typeIndexes.take j) ∧
    (∀ e ∈ typeDepEnumIdxs context x, e ∈ s.enumIndexes)

theorem depOrderedAux_iff (context : VkbBuild) (s : DepState) :
    DepOrderedAux context s ↔ DepOrdered context s := by
  constructor
  · intro ⟨hnd, hcl⟩
    refine ⟨hnd, ?_, ?_⟩
    · intro j a ha
      exact (hcl j.val (s.typeIndexes.get j)
        (by simp [List.getElem?_eq_getElem j.isLt, List.get_eq_getElem])).1 a ha
    · intro j e he
      exact (hcl j.val (s.typeIndexes.get j)
        (by simp [List.getElem?_eq_getElem j.isLt, List.get_eq_getElem])).2 e he
  · intro ⟨hnd, hcl1, hcl2⟩
    refine ⟨hnd, ?_⟩
    intro j x hx
    rw [List.getElem?_eq_some] at hx
    obtain ⟨hj, hx⟩ := hx
    subst hx
    exact ⟨fun a ha => hcl1 ⟨j, hj⟩ a (by simpa [List.get_eq_getElem] using ha),
      fun e he => hcl2 ⟨j, hj⟩ e (by simpa [List.get_eq_getElem] using he)⟩

/-- Behavioural contract of one pass of the dependency walk: the state only
grows (both lists by appending), and the ordering invariant is preserved. -/
def StateStep (context : VkbBuild) (f : DepState → Option DepState) : Prop :=
  ∀ s s', f s = some s' →
    (∃ u, s'.typeIndexes = s.typeIndexes ++ u) ∧
    (∃ v, s'.enumIndexes = s.enumIndexes ++ v) ∧
    (DepOrderedAux context s → DepOrderedAux context s')

theorem stateStep_id (context : VkbBuild) : StateStep context (fun s => some s) := by
  intro s s' h
  injection h with h
  subst h
  exact ⟨⟨[], by simp⟩, ⟨[], by simp⟩, id⟩

theorem StateStep.mem_type {context : VkbBuild} {f : DepState → Option DepState}
    (hf : StateStep context f) {s s' : DepState} (h : f s = some s') {x : Nat}
    (hx : x ∈ s.typeIndexes) : x ∈ s'.typeIndexes := by
  obtain ⟨⟨u, hu⟩, -, -⟩ := hf s s' h
  rw [hu]
  exact List.mem_append_left u hx

theorem StateStep.mem_enum {context : VkbBuild} {f : DepState → Option DepState}
    (hf : StateStep context f) {s s' : DepState} (h : f s = some s') {x : Nat}
    (hx : x ∈ s.enumIndexes) : x ∈ s'.enumIndexes := by
  obtain ⟨-, ⟨v, hv⟩, -⟩ := hf s s' h
  rw [hv]
  exact List.mem_append_left v hx

theorem stateStep_bind (context : VkbBuild) (f g : DepState → Option DepState)
    (hf : StateStep context f) (hg : StateStep context g) :
    StateStep context (fun s => (f s).bind g) := by
  intro s s' h
  rw [Option.bind_eq_some] at h
  obtain ⟨s1, h1, h2⟩ := h
  obtain ⟨⟨u1, hu1⟩, ⟨v1, hv1⟩, hord1⟩ := hf s s1 h1
  obtain ⟨⟨u2, hu2⟩, ⟨v2, hv2⟩, hord2⟩ := hg s1 s' h2
  exact ⟨⟨u1 ++ u2, by rw [hu2, hu1, List.append_assoc]⟩,
    ⟨v1 ++ v2, by rw [hv2, hv1, List.append_assoc]⟩, fun hi => hord2 (hord1 hi)⟩

theorem stateStep_foldlM {α : Type _} (context : VkbBuild) (l : List α)
    (step : DepState → α → Option DepState)
    (h : ∀ x ∈ l, StateStep context (fun s => step s x)) :
    StateStep context (fun s => l.foldlM step s) := by
  induction l with
  | nil =>
    intro s s' hs
    simp only [List.foldlM_nil] at hs
    injection hs with hs
    subst hs
    exact ⟨⟨[], by simp⟩, ⟨[], by simp⟩, id⟩
  | cons x xs ih =>
    have hx := h x (List.mem_cons_self x xs)
    have hxs := ih (fun y hy => h y (List.mem_cons_of_mem x hy))
    intro s s' hs
    simp only [List.foldlM_cons] at hs
    cases hstep : step s x with
    | none => rw [hstep] at hs; cases hs
    | some s1 =>
      rw [hstep] at hs
      simp only [Option.bind_eq_bind, Option.some_bind] at hs
      obtain ⟨⟨u1, hu1⟩, ⟨v1, hv1⟩, hord1⟩ := hx s s1 hstep
      obtain ⟨⟨u2, hu2⟩, ⟨v2, hv2⟩, hord2⟩ := hxs s1 s' hs
      exact ⟨⟨u1 ++ u2, by rw [hu2, hu1, List.append_assoc]⟩,
        ⟨v1 ++ v2, by rw [hv2, hv1, List.append_assoc]⟩, fun hi => hord2 (hord1 hi)⟩

/-- `vkbBuildAddEnumDependencies` is a well-behaved step. -/
theorem stateStep_addEnum (context : VkbBuild) (n : String) :
    StateStep context (fun s => some (vkbBuildAddEnumDependencies context n s)) := by
  intro s s' h
  injection h with h
  subst h
  unfold vkbBuildAddEnumDependencies
  cases hfind : vkbBuildFindEnumByName context n with
  | none => exact ⟨⟨[], by simp⟩, ⟨[], by simp⟩, id⟩
  | some i =>
    dsimp only
    by_cases hmem : i ∈ s.enumIndexes
    · rw [if_pos hmem]
      exact ⟨⟨[], by simp⟩, ⟨[], by simp⟩, id⟩
    · rw [if_neg hmem]
      refine ⟨⟨[], by simp⟩, ⟨[i], by simp⟩, ?_⟩
      intro ⟨hnd, hcl⟩
      refine ⟨hnd, ?_⟩
      intro j x hx
      obtain ⟨h1, h2⟩ := hcl j x hx
      exact ⟨h1, fun e he => List.mem_append_left [i] (h2 e he)⟩

/-- The stepwise fold of `vkbBuildAddEnumDependencies` used by
`ParseRequire` (a pure `foldl`). -/
theorem stateStep_foldl_addEnum (context : VkbBuild) (l : List VkbBuildRequireEnum) :
    StateStep context
      (fun s => some (l.foldl (fun s re => vkbBuildAddEnumDependencies context re.name s) s)) := by
  induction l with
  | nil => simpa using stateStep_id context
  | cons re res ih =>
    intro s s' h
    simp only [List.foldl_cons] at h
    obtain ⟨hu, hv, hord⟩ := ih (vkbBuildAddEnumDependencies context re.name s) s' h
    obtain ⟨⟨u1, hu1⟩, ⟨v1, hv1⟩, hord1⟩ :=
      stateStep_addEnum context re.name s (vkbBuildAddEnumDependencies context re.name s) rfl
    obtain ⟨u2, hu2⟩ := hu
    obtain ⟨v2, hv2⟩ := hv
    exact ⟨⟨u1 ++ u2, by rw [hu2, hu1, List.append_assoc]⟩,
      ⟨v1 ++ v2, by rw [hv2, hv1, List.append_assoc]⟩, fun hi => hord (hord1 hi)⟩

/-- Pushing a type whose dependencies are already present preserves the
ordering invariant. -/
theorem depOrderedAux_push (context : VkbBuild) (s : DepState) (typeIndex : Nat)
    (hord : DepOrderedAux context s)
    (hdeps : ∀ a ∈ typeDepIdxs context typeIndex, a ∈ s.typeIndexes)
    (hedeps : ∀ e ∈ typeDepEnumIdxs context typeIndex, e ∈ s.enumIndexes) :
    DepOrderedAux context (addTypePushPart typeIndex s) := by
  obtain ⟨hnd, hcl⟩ := hord
  unfold addTypePushPart
  by_cases hmem : typeIndex ∈ s.typeIndexes
  · rw [if_pos hmem]
    exact ⟨hnd, hcl⟩
  · rw [if_neg hmem]
    refine ⟨by simp [List.nodup_append, hnd, hmem], ?_⟩
    intro j x hx
    dsimp only at hx ⊢
    by_cases hj : j < s.typeIndexes.length
    · rw [List.getElem?_append_left hj] at hx
      obtain ⟨h1, h2⟩ := hcl j x hx
      refine ⟨?_, h2⟩
      intro a ha
      rw [List.take_append_eq_append_take]
      exact List.mem_append_left _ (h1 a ha)
    · by_cases hj2 : j = s.typeIndexes.length
      · subst hj2
        rw [List.getElem?_concat_length] at hx
        injection hx with hx
        subst hx
        refine ⟨?_, hedeps⟩
        intro a ha
        rw [List.take_left]
        exact hdeps a ha
      · have hnone : (s.typeIndexes ++ [typeIndex])[j]? = none := by
          rw [List.getElem?_eq_none]
          simp
          omega
        rw [hnone] at hx
        cases hx

/-- A successful `vkbBuildAddTypeDependencies` run leaves the resolved
index in the output list. -/
theorem addType_mem (context : VkbBuild) (fuel : Nat) (n : String) (s s' : DepState)
    (h : vkbBuildAddTypeDependencies context fuel n s = some s') :
    ∀ i, vkbBuildFindTypeByName context n = some i → i ∈ s'.typeIndexes := by
  intro i hi
  cases fuel with
  | zero => cases h
  | succ fuel =>
    unfold vkbBuildAddTypeDependencies at h
    rw [hi] at h
    dsimp only at h
    rw [Option.bind_eq_some] at h
    obtain ⟨s1, h1, h⟩ := h
    rw [Option.bind_eq_some] at h
    obtain ⟨s2, h2, h3⟩ := h
    injection h3 with h3
    subst h3
    unfold addTypePushPart
    by_cases hmem : i ∈ s2.typeIndexes
    · rw [if_pos hmem]
      exact hmem
    · rw [if_neg hmem]
      simp

/-- A successful `vkbBuildAddEnumDependencies` run leaves the resolved
index in the enum list. -/
theorem addEnum_mem (context : VkbBuild) (n : String) (s : DepState) :
    ∀ e, vkbBuildFindEnumByName context n = some e →
      e ∈ (vkbBuildAddEnumDependencies context n s).enumIndexes := by
  intro e he
  unfold vkbBuildAddEnumDependencies
  rw [he]
  dsimp only
  by_cases hmem : e ∈ s.enumIndexes
  · rw [if_pos hmem]
    exact hmem
  · rw [if_neg hmem]
    simp

/-- A conditional recursive call is a well-behaved step. -/
theorem stateStep_condRec (context : VkbBuild) (rec : String → DepState → Option DepState)
    (hrec : ∀ n, StateStep context (rec n)) (cond : Prop) [Decidable cond] (nm : String) :
    StateStep context (fun s => if cond then rec nm s else some s) := by
  by_cases hc : cond
  · intro s s' h
    dsimp only at h
    rw [if_pos hc] at h
    exact hrec nm s s' h
  · intro s s' h
    dsimp only at h
    rw [if_neg hc] at h
    injection h with h
    subst h
    exact ⟨⟨[], by simp⟩, ⟨[], by simp⟩, id⟩

/-- The optional `arrayEnum` insertion is a well-behaved step. -/
theorem stateStep_condEnum (context : VkbBuild) (cond : Prop) [Decidable cond] (nm : String) :
    StateStep context
      (fun s => some (if cond then vkbBuildAddEnumDependencies context nm s else s)) := by
  by_cases hc : cond
  · intro s s' h
    dsimp only at h
    rw [if_pos hc] at h
    exact stateStep_addEnum context nm s s' h
  · intro s s' h
    dsimp only at h
    rw [if_neg hc] at h
    injection h with h
    subst h
    exact ⟨⟨[], by simp⟩, ⟨[], by simp⟩, id⟩

/-- One struct/union member of the dependency walk is a well-behaved step. -/
theorem stateStep_memberStep (context : VkbBuild) (rec : String → DepState → Option DepState)
    (hrec : ∀ n, StateStep context (rec n)) (typeName : String)
    (m : VkbBuildFunctionParameter) :
    StateStep context
      (fun s =>
        if m.type == typeName then some s
        else
          rec m.type
            (if m.arrayEnum.length > 0 then vkbBuildAddEnumDependencies context m.arrayEnum s
             else s)) := by
  by_cases hm : (m.type == typeName) = true
  · intro s s' h
    dsimp only at h
    rw [if_pos hm] at h
    injection h with h
    subst h
    exact ⟨⟨[], by simp⟩, ⟨[], by simp⟩, id⟩
  · intro s s' h
    dsimp only at h
    rw [if_neg hm] at h
    obtain ⟨⟨u1, hu1⟩, ⟨v1, hv1⟩, hord1⟩ :=
      stateStep_condEnum context (m.arrayEnum.length > 0) m.arrayEnum s _ rfl
    obtain ⟨⟨u2, hu2⟩, ⟨v2, hv2⟩, hord2⟩ := hrec m.type _ s' h
    exact ⟨⟨u1 ++ u2, by rw [hu2, hu1, List.append_assoc]⟩,
      ⟨v1 ++ v2, by rw [hv2, hv1, List.append_assoc]⟩, fun hi => hord2 (hord1 hi)⟩

/-- One function-pointer parameter of the dependency walk is a
well-behaved step. -/
theorem stateStep_paramStep (context : VkbBuild) (rec : String → DepState → Option DepState)
    (hrec : ∀ n, StateStep context (rec n)) (p : VkbBuildFunctionParameter) :
    StateStep context
      (fun s =>
        rec p.type
          (if p.arrayEnum.length > 0 then vkbBuildAddEnumDependencies context p.arrayEnum s
           else s)) := by
  intro s s' h
  obtain ⟨⟨u1, hu1⟩, ⟨v1, hv1⟩, hord1⟩ :=
    stateStep_condEnum context (p.arrayEnum.length > 0) p.arrayEnum s _ rfl
  obtain ⟨⟨u2, hu2⟩, ⟨v2, hv2⟩, hord2⟩ := hrec p.type _ s' h
  exact ⟨⟨u1 ++ u2, by rw [hu2, hu1, List.append_assoc]⟩,
    ⟨v1 ++ v2, by rw [hv2, hv1, List.append_assoc]⟩, fun hi => hord2 (hord1 hi)⟩

/-- The alias step of the dependency walk is well behaved. -/
theorem aliasPart_stateStep (context : VkbBuild) (rec : String → DepState → Option DepState)
    (t : VkbBuildType) (hrec : ∀ n, StateStep context (rec n)) :
    StateStep context (addTypeAliasPart rec t) := by
  intro s s' h
  unfold addTypeAliasPart at h
  by_cases ha : t.aliasName ≠ ""
  · rw [if_pos ha] at h
    exact hrec t.aliasName s s' h
  · rw [if_neg ha] at h
    injection h with h
    subst h
    exact ⟨⟨[], by simp⟩, ⟨[], by simp⟩, id⟩

/-- The per-category section of the dependency walk is well behaved. -/
theorem categoryPart_stateStep (context : VkbBuild)
    (rec : String → DepState → Option DepState) (typeName : String) (t : VkbBuildType)
    (hrec : ∀ n, StateStep context (rec n)) :
    StateStep context (addTypeCategoryPart context rec typeName t) := by
  intro s s' h
  unfold addTypeCategoryPart at h
  by_cases hA : t.category = "define" ∨ t.category = "basetype" ∨ t.category = "bitmask" ∨
      t.category = "handle" ∨ t.category = "enum"
  · rw [if_pos hA] at h
    exact stateStep_bind context _ _ (stateStep_condRec context rec hrec _ t.type)
      (stateStep_bind context _ _ (stateStep_condRec context rec hrec _ t.requires)
        (stateStep_condRec context rec hrec _ t.bitvalues)) s s' h
  · rw [if_neg hA] at h
    by_cases hS : t.category = "struct" ∨ t.category = "union"
    · rw [if_pos hS] at h
      exact stateStep_foldlM context t.structData _
        (fun m _ => stateStep_memberStep context rec hrec typeName m) s s' h
    · rw [if_neg hS] at h
      by_cases hF : t.category = "funcpointer"
      · rw [if_pos hF] at h
        exact stateStep_bind context _ _ (hrec t.funcpointer.returnType)
          (fun s s' h2 => stateStep_foldlM context t.funcpointer.params _
            (fun p _ => stateStep_paramStep context rec hrec p) s s' h2) s s' h
      · rw [if_neg hF] at h
        by_cases hE : t.category = ""
        · rw [if_pos hE] at h
          exact stateStep_bind context _ _ (stateStep_condRec context rec hrec _ t.requires)
            (stateStep_condRec context rec hrec _ t.bitvalues) s s' h
        · rw [if_neg hE] at h
          injection h with h
          subst h
          exact ⟨⟨[], by simp⟩, ⟨[], by simp⟩, id⟩

/-- Splitting one step off an `Option` fold. -/
theorem foldlM_cons_some {α : Type _} (step : DepState → α → Option DepState) (x : α)
    (xs : List α) (s s' : DepState) (h : (x :: xs).foldlM step s = some s') :
    ∃ s1, step s x = some s1 ∧ xs.foldlM step s1 = some s' := by
  rw [List.foldlM_cons] at h
  cases hres : step s x with
  | none => rw [hres] at h; cases h
  | some s1 =>
    rw [hres] at h
    simp only [Option.bind_eq_bind, Option.some_bind] at h
    exact ⟨s1, rfl, h⟩

/-- Every non-skipped struct member processed by the fold ends up with its
resolvable type (and `arrayEnum`) indices in the state. -/
theorem structFold_mem (context : VkbBuild) (rec : String → DepState → Option DepState)
    (hrecstep : ∀ n, StateStep context (rec n))
    (hrecmem : ∀ n s s', rec n s = some s' →
      ∀ i, vkbBuildFindTypeByName context n = some i → i ∈ s'.typeIndexes)
    (typeName : String) :
    ∀ (ms : List VkbBuildFunctionParameter) (s s' : DepState),
      ms.foldlM
        (fun s m =>
          if m.type == typeName then some s
          else
            rec m.type
              (if m.arrayEnum.length > 0 then vkbBuildAddEnumDependencies context m.arrayEnum s
               else s)) s = some s' →
      ∀ m ∈ ms, ¬((m.type == typeName) = true) →
        (∀ a, vkbBuildFindTypeByName context m.type = some a → a ∈ s'.typeIndexes) ∧
        (∀ e, m.arrayEnum.length > 0 → vkbBuildFindEnumByName context m.arrayEnum = some e →
          e ∈ s'.enumIndexes) := by
  intro ms
  induction ms with
  | nil => intro s s' h m hm; cases hm
  | cons m0 ms ih =>
    intro s s' h m hm hskip
    obtain ⟨s1, hstep, hrest⟩ := foldlM_cons_some _ m0 ms s s' h
    have hfoldstep : StateStep context
        (fun s => ms.foldlM
          (fun s m =>
            if m.type == typeName then some s
            else
              rec m.type
                (if m.arrayEnum.length > 0 then
                  vkbBuildAddEnumDependencies context m.arrayEnum s
                 else s)) s) :=
      stateStep_foldlM context ms _ (fun m _ => stateStep_memberStep context rec hrecstep typeName m)
    rcases List.mem_cons.mp hm with hm0 | hm'
    · subst hm0
      rw [if_neg hskip] at hstep
      constructor
      · intro a ha
        have h1 := hrecmem m.type _ s1 hstep a ha
        exact hfoldstep.mem_type hrest h1
      · intro e hlen he
        have h0 : e ∈ (if m.arrayEnum.length > 0 then
            vkbBuildAddEnumDependencies context m.arrayEnum s else s).enumIndexes := by
          rw [if_pos hlen]
          exact addEnum_mem context m.arrayEnum s e he
        have h1 := (hrecstep m.type).mem_enum hstep h0
        exact hfoldstep.mem_enum hrest h1
    · exact ih s1 s' hrest m hm' hskip

/-- Every function-pointer parameter processed by the fold ends up with its
resolvable type (and `arrayEnum`) indices in the state. -/
theorem paramFold_mem (context : VkbBuild) (rec : String → DepState → Option DepState)
    (hrecstep : ∀ n, StateStep context (rec n))
    (hrecmem : ∀ n s s', rec n s = some s' →
      ∀ i, vkbBuildFindTypeByName context n = some i → i ∈ s'.typeIndexes) :
    ∀ (ps : List VkbBuildFunctionParameter) (s s' : DepState),
      ps.foldlM
        (fun s p =>
          rec p.type
            (if p.arrayEnum.length > 0 then vkbBuildAddEnumDependencies context p.arrayEnum s
             else s)) s = some s' →
      ∀ p ∈ ps,
        (∀ a, vkbBuildFindTypeByName context p.type = some a → a ∈ s'.typeIndexes) ∧
        (∀ e, p.arrayEnum.length > 0 → vkbBuildFindEnumByName context p.arrayEnum = some e →
          e ∈ s'.enumIndexes) := by
  intro ps
  induction ps with
  | nil => intro s s' h p hp; cases hp
  | cons p0 ps ih =>
    intro s s' h p hp
    obtain ⟨s1, hstep, hrest⟩ := foldlM_cons_some _ p0 ps s s' h
    have hfoldstep : StateStep context
        (fun s => ps.foldlM
          (fun s p =>
            rec p.type
              (if p.arrayEnum.length > 0 then vkbBuildAddEnumDependencies context p.arrayEnum s
               else s)) s) :=
      stateStep_foldlM context ps _ (fun p _ => stateStep_paramStep context rec hrecstep p)
    rcases List.mem_cons.mp hp with hp0 | hp'
    · subst hp0
      constructor
      · intro a ha
        exact hfoldstep.mem_type hrest (hrecmem p.type _ s1 hstep a ha)
      · intro e hlen he
        have h0 : e ∈ (if p.arrayEnum.length > 0 then
            vkbBuildAddEnumDependencies context p.arrayEnum s else s).enumIndexes := by
          rw [if_pos hlen]
          exact addEnum_mem context p.arrayEnum s e he
        exact hfoldstep.mem_enum hrest ((hrecstep p.type).mem_enum hstep h0)
    · exact ih s1 s' hrest p hp'

/-- Every branch dependency name that resolves ends up with its index in
the state after the per-category section runs. -/
theorem categoryPart_mem (context : VkbBuild) (rec : String → DepState → Option DepState)
    (hrecstep : ∀ n, StateStep context (rec n))
    (hrecmem : ∀ n s s', rec n s = some s' →
      ∀ i, vkbBuildFindTypeByName context n = some i → i ∈ s'.typeIndexes)
    (typeName : String) (t : VkbBuildType) (s s' : DepState)
    (h : addTypeCategoryPart context rec typeName t s = some s') :
    (∀ nd ∈ branchTypeDepNames t typeName, ∀ a, vkbBuildFindTypeByName context nd = some a →
      a ∈ s'.typeIndexes) ∧
    (∀ ne ∈ branchEnumDepNames t typeName, ∀ e, vkbBuildFindEnumByName context ne = some e →
      e ∈ s'.enumIndexes) := by
  unfold addTypeCategoryPart at h
  by_cases hA : t.category = "define" ∨ t.category = "basetype" ∨ t.category = "bitmask" ∨
      t.category = "handle" ∨ t.category = "enum"
  · rw [if_pos hA] at h
    rw [Option.bind_eq_some] at h
    obtain ⟨s1, h1, h⟩ := h
    rw [Option.bind_eq_some] at h
    obtain ⟨s2, h2, h3⟩ := h
    have hstep2 : StateStep context
        (fun s => if t.requires.length > 0 then rec t.requires s else some s) :=
      stateStep_condRec context rec hrecstep _ t.requires
    have hstep3 : StateStep context
        (fun s => if t.bitvalues.length > 0 then rec t.bitvalues s else some s) :=
      stateStep_condRec context rec hrecstep _ t.bitvalues
    constructor
    · intro nd hnd a ha
      unfold branchTypeDepNames at hnd
      rw [if_pos hA] at hnd
      rcases List.mem_append.mp hnd with hnd | hnd
      · rcases List.mem_append.mp hnd with hnd | hnd
        · by_cases ht : t.type.length > 0
          · rw [if_pos ht] at hnd
            rw [List.mem_singleton.mp hnd] at ha
            rw [if_pos ht] at h1
            exact hstep3.mem_type h3 (hstep2.mem_type h2 (hrecmem t.type s s1 h1 a ha))
          · rw [if_neg ht] at hnd
            cases hnd
        · by_cases ht : t.requires.length > 0
          · rw [if_pos ht] at hnd
            rw [List.mem_singleton.mp hnd] at ha
            rw [if_pos ht] at h2
            exact hstep3.mem_type h3 (hrecmem t.requires s1 s2 h2 a ha)
          · rw [if_neg ht] at hnd
            cases hnd
      · by_cases ht : t.bitvalues.length > 0
        · rw [if_pos ht] at hnd
          rw [List.mem_singleton.mp hnd] at ha
          rw [if_pos ht] at h3
          exact hrecmem t.bitvalues s2 s' h3 a ha
        · rw [if_neg ht] at hnd
          cases hnd
    · intro ne hne
      unfold branchEnumDepNames at hne
      rw [if_pos hA] at hne
      cases hne
  · rw [if_neg hA] at h
    by_cases hS : t.category = "struct" ∨ t.category = "union"
    · rw [if_pos hS] at h
      constructor
      · intro nd hnd a ha
        unfold branchTypeDepNames at hnd
        rw [if_neg hA, if_pos hS] at hnd
        rw [List.mem_map] at hnd
        obtain ⟨m, hmf, hmt⟩ := hnd
        rw [List.mem_filter] at hmf
        obtain ⟨hm_mem, hm_cond⟩ := hmf
        have hskip : ¬((m.type == typeName) = true) := by simpa using hm_cond
        rw [← hmt] at ha
        exact (structFold_mem context rec hrecstep hrecmem typeName t.structData s s' h
          m hm_mem hskip).1 a ha
      · intro ne hne e he
        unfold branchEnumDepNames at hne
        rw [if_neg hA, if_pos hS] at hne
        rw [List.mem_map] at hne
        obtain ⟨m, hmf, hme⟩ := hne
        rw [List.mem_filter] at hmf
        obtain ⟨hm_mem, hm_cond⟩ := hmf
        have hcond : ¬((m.type == typeName) = true) ∧ m.arrayEnum.length > 0 := by
          simpa using hm_cond
        rw [← hme] at he
        exact (structFold_mem context rec hrecstep hrecmem typeName t.structData s s' h
          m hm_mem hcond.1).2 e hcond.2 he
    · rw [if_neg hS] at h
      by_cases hF : t.category = "funcpointer"
      · rw [if_pos hF] at h
        rw [Option.bind_eq_some] at h
        obtain ⟨s1, h1, h2⟩ := h
        have hfoldstep : StateStep context
            (fun s => t.funcpointer.params.foldlM
              (fun s p =>
                rec p.type
                  (if p.arrayEnum.length > 0 then
                    vkbBuildAddEnumDependencies context p.arrayEnum s
                   else s)) s) :=
          stateStep_foldlM context t.funcpointer.params _
            (fun p _ => stateStep_paramStep context rec hrecstep p)
        constructor
        · intro nd hnd a ha
          unfold branchTypeDepNames at hnd
          rw [if_neg hA, if_neg hS, if_pos hF] at hnd
          rcases List.mem_cons.mp hnd with hnd | hnd
          · rw [hnd] at ha
            exact hfoldstep.mem_type h2 (hrecmem t.funcpointer.returnType s s1 h1 a ha)
          · rw [List.mem_map] at hnd
            obtain ⟨p, hp_mem, hpt⟩ := hnd
            rw [← hpt] at ha
            exact (paramFold_mem context rec hrecstep hrecmem t.funcpointer.params s1 s' h2
              p hp_mem).1 a ha
        · intro ne hne e he
          unfold branchEnumDepNames at hne
          rw [if_neg hA, if_neg hS, if_pos hF] at hne
          rw [List.mem_map] at hne
          obtain ⟨p, hpf, hpe⟩ := hne
          rw [List.mem_filter] at hpf
          obtain ⟨hp_mem, hp_cond⟩ := hpf
          have hcond : p.arrayEnum.length > 0 := by simpa using hp_cond
          rw [← hpe] at he
          exact (paramFold_mem context rec hrecstep hrecmem t.funcpointer.params s1 s' h2
            p hp_mem).2 e hcond he
      · rw [if_neg hF] at h
        by_cases hE : t.category = ""
        · rw [if_pos hE] at h
          rw [Option.bind_eq_some] at h
          obtain ⟨s1, h1, h2⟩ := h
          have hstep2 : StateStep context
              (fun s => if t.bitvalues.length > 0 then rec t.bitvalues s else some s) :=
            stateStep_condRec context rec hrecstep _ t.bitvalues
          constructor
          · intro nd hnd a ha
            unfold branchTypeDepNames at hnd
            rw [if_neg hA, if_neg hS, if_neg hF, if_pos hE] at hnd
            rcases List.mem_append.mp hnd with hnd | hnd
            · by_cases ht : t.requires.length > 0
              · rw [if_pos ht] at hnd
                rw [List.mem_singleton.mp hnd] at ha
                rw [if_pos ht] at h1
                exact hstep2.mem_type h2 (hrecmem t.requires s s1 h1 a ha)
              · rw [if_neg ht] at hnd
                cases hnd
            · by_cases ht : t.bitvalues.length > 0
              · rw [if_pos ht] at hnd
                rw [List.mem_singleton.mp hnd] at ha
                rw [if_pos ht] at h2
                exact hrecmem t.bitvalues s1 s' h2 a ha
              · rw [if_neg ht] at hnd
                cases hnd
          · intro ne hne
            unfold branchEnumDepNames at hne
            rw [if_neg hA] at hne
            rw [if_neg hS, if_neg hF] at hne
            cases hne
        · rw [if_neg hE] at h
          injection h with h
          subst h
          constructor
          · intro nd hnd
            unfold branchTypeDepNames at hnd
            rw [if_neg hA, if_neg hS, if_neg hF, if_neg hE] at hnd
            cases hnd
          · intro ne hne
            unfold branchEnumDepNames at hne
            rw [if_neg hA, if_neg hS, if_neg hF] at hne
            cases hne

/-- The trailing push only appends to the type list. -/
theorem pushPart_typeIndexes (typeIndex : Nat) (s : DepState) :
    ∃ w, (addTypePushPart typeIndex s).typeIndexes = s.typeIndexes ++ w := by
  unfold addTypePushPart
  by_cases hmem : typeIndex ∈ s.typeIndexes
  · rw [if_pos hmem]
    exact ⟨[], by simp⟩
  · rw [if_neg hmem]
    exact ⟨[typeIndex], rfl⟩

/-- The trailing push leaves the enum list unchanged. -/
theorem pushPart_enumIndexes (typeIndex : Nat) (s : DepState) :
    (addTypePushPart typeIndex s).enumIndexes = s.enumIndexes := by
  unfold addTypePushPart
  by_cases hmem : typeIndex ∈ s.typeIndexes
  · rw [if_pos hmem]
  · rw [if_neg hmem]

/-- `vkbBuildAddTypeDependencies` is a well-behaved step at every fuel: a
terminating run only appends to the state and preserves the dependency
ordering invariant. -/
theorem addType_stateStep (context : VkbBuild) :
    ∀ (fuel : Nat) (n : String),
      StateStep context (vkbBuildAddTypeDependencies context fuel n) := by
  intro fuel
  induction fuel with
  | zero =>
    intro n s s' h
    unfold vkbBuildAddTypeDependencies at h
    cases h
  | succ fuel ih =>
    intro n s s' h
    unfold vkbBuildAddTypeDependencies at h
    cases hfind : vkbBuildFindTypeByName context n with
    | none =>
      rw [hfind] at h
      dsimp only at h
      injection h with h
      subst h
      exact ⟨⟨[], by simp⟩, ⟨[], by simp⟩, id⟩
    | some typeIndex =>
      rw [hfind] at h
      dsimp only at h
      rw [Option.bind_eq_some] at h
      obtain ⟨s1, halias, h⟩ := h
      rw [Option.bind_eq_some] at h
      obtain ⟨s2, hcat, h3⟩ := h
      injection h3 with h3
      subst h3
      have hrecstep : ∀ m, StateStep context
          (fun s => vkbBuildAddTypeDependencies context fuel m s) := fun m => ih m
      have hrecmem : ∀ m s s',
          (fun s => vkbBuildAddTypeDependencies context fuel m s) s = some s' →
          ∀ i, vkbBuildFindTypeByName context m = some i → i ∈ s'.typeIndexes :=
        fun m s s' h => addType_mem context fuel m s s' h
      have haliasstep := aliasPart_stateStep context _ (typeAt context typeIndex) hrecstep
      have hcatstep := categoryPart_stateStep context _ n (typeAt context typeIndex) hrecstep
      obtain ⟨⟨u1, hu1⟩, ⟨v1, hv1⟩, hord1⟩ := haliasstep s s1 halias
      obtain ⟨⟨u2, hu2⟩, ⟨v2, hv2⟩, hord2⟩ := hcatstep s1 s2 hcat
      obtain ⟨w, hw⟩ := pushPart_typeIndexes typeIndex s2
      refine ⟨⟨u1 ++ u2 ++ w, by rw [hw, hu2, hu1]; simp [List.append_assoc]⟩,
        ⟨v1 ++ v2, by rw [pushPart_enumIndexes, hv2, hv1, List.append_assoc]⟩, ?_⟩
      intro hord
      have hname := findTypeByName_name context n typeIndex hfind
      have hmem := categoryPart_mem context _ hrecstep hrecmem n (typeAt context typeIndex)
        s1 s2 hcat
      refine depOrderedAux_push context s2 typeIndex (hord2 (hord1 hord)) ?_ ?_
      · intro a ha
        unfold typeDepIdxs at ha
        rw [hname] at ha
        rw [List.mem_filterMap] at ha
        obtain ⟨nd, hnd, hfa⟩ := ha
        unfold typeDepNames at hnd
        rcases List.mem_append.mp hnd with hnd | hnd
        · by_cases hal : (typeAt context typeIndex).aliasName ≠ ""
          · rw [if_pos hal] at hnd
            rw [List.mem_singleton.mp hnd] at hfa
            unfold addTypeAliasPart at halias
            rw [if_pos hal] at halias
            exact hcatstep.mem_type hcat
              (addType_mem context fuel _ s s1 halias a hfa)
          · rw [if_neg hal] at hnd
            cases hnd
        · exact hmem.1 nd hnd a hfa
      · intro e he
        unfold typeDepEnumIdxs at he
        rw [hname] at he
        rw [List.mem_filterMap] at he
        obtain ⟨ne, hne, hfe⟩ := he
        exact hmem.2 ne hne e hfe

/-- `vkbBuildAddCommandDependencies` is a well-behaved step. -/
theorem addCommand_stateStep (context : VkbBuild) (fuel : Nat) (n : String) :
    StateStep context (vkbBuildAddCommandDependencies context fuel n) := by
  intro s s' h
  unfold vkbBuildAddCommandDependencies at h
  cases hfind : vkbBuildFindCommandByName context n with
  | none =>
    rw [hfind] at h
    dsimp only at h
    injection h with h
    subst h
    exact ⟨⟨[], by simp⟩, ⟨[], by simp⟩, id⟩
  | some commandIndex =>
    rw [hfind] at h
    dsimp only at h
    exact stateStep_bind context _ _
      (addType_stateStep context fuel (commandAt context commandIndex).returnType)
      (stateStep_foldlM context (commandAt context commandIndex).parameters _
        (fun p _ => addType_stateStep context fuel p.type)) s s' h

/-- `ParseRequire` is a well-behaved step. -/
theorem parseRequire_stateStep (context : VkbBuild) (fuel : Nat) (r : VkbBuildRequire) :
    StateStep context (vkbParseRequireDependencies context fuel r) := by
  intro s s' h
  unfold vkbParseRequireDependencies at h
  rw [Option.bind_eq_some] at h
  obtain ⟨s1, h1, h2⟩ := h
  obtain ⟨⟨u1, hu1⟩, ⟨v1, hv1⟩, hord1⟩ :=
    stateStep_foldlM context r.types _
      (fun rt _ => addType_stateStep context fuel rt.name) s s1 h1
  obtain ⟨⟨u2, hu2⟩, ⟨v2, hv2⟩, hord2⟩ :=
    stateStep_foldl_addEnum context r.enums s1
      (r.enums.foldl (fun s re => vkbBuildAddEnumDependencies context re.name s) s1) rfl
  obtain ⟨⟨u3, hu3⟩, ⟨v3, hv3⟩, hord3⟩ :=
    stateStep_foldlM context r.commands _
      (fun rc _ => addCommand_stateStep context fuel rc.name) _ s' h2
  refine ⟨⟨u1 ++ (u2 ++ u3), ?_⟩, ⟨v1 ++ (v2 ++ v3), ?_⟩, fun hi => hord3 (hord2 (hord1 hi))⟩
  · rw [hu3, hu2, hu1]
    simp [List.append_assoc]
  · rw [hv3, hv2, hv1]
    simp [List.append_assoc]

/-- The freshly constructed dependency record is trivially ordered. -/
theorem depOrderedAux_empty (context : VkbBuild) : DepOrderedAux context ⟨[], []⟩ := by
  refine ⟨List.nodup_nil, ?_⟩
  intro j x hx
  simp at hx

/-- **C1.** For every feature and every extension, a terminating run of the
dependency resolver produces type-index and enum-container-index lists that
are dependency ordered: the type list has no duplicates, every resolvable
direct type dependency of an entry (alias target, type/requires/bitvalues
link, struct or union member type, function-pointer return or parameter
type, including those reached through a command's return and parameter
types) appears strictly before that entry in the list, and every resolvable
`arrayEnum` dependency appears in the enum-container list. -/
theorem C1_dependency_order (context : VkbBuild) (fuel : Nat)
    (feature : VkbBuildFeature) (extension : VkbBuildExtension) (sf se : DepState)
    (hf : vkbParseFeatureDependencies context fuel feature = some sf)
    (he : vkbParseExtensionDependencies context fuel extension = some se) :
    DepOrdered context sf ∧ DepOrdered context se := by
  constructor
  · unfold vkbParseFeatureDependencies at hf
    obtain ⟨-, -, hord⟩ :=
      stateStep_foldlM context feature.requires _
        (fun r _ => parseRequire_stateStep context fuel r) ⟨[], []⟩ sf hf
    exact (depOrderedAux_iff context sf).mp (hord (depOrderedAux_empty context))
  · unfold vkbParseExtensionDependencies at he
    obtain ⟨-, -, hord⟩ :=
      stateStep_foldlM context extension.requires _
        (fun r _ => parseRequire_stateStep context fuel r) ⟨[], []⟩ se he
    exact (depOrderedAux_iff context se).mp (hord (depOrderedAux_empty context))

def exMemberDevice : VkbBuildFunctionParameter :=
  { typeC := "VkDevice", type := "VkDevice", nameC := "device", name := "device",
    arrayEnum := "E" }

def exTypeStructS : VkbBuildType :=
  { type := "", name := "VkS", category := "struct", aliasName := "", requires := "",
    bitvalues := "", parent := "", structData := [exMemberDevice, mkParam "uint32_t"],
    funcpointer := default, verbatimValue := "" }

def exEnumsE : VkbBuildEnums := { name := "E", type := "enum", enums := [] }

def exRequireDeps : VkbBuildRequire :=
  { types := [⟨"VkS"⟩], enums := [], commands := [⟨"vkCmd"⟩] }

def exFeatureDeps : VkbBuildFeature :=
  { api := "vulkan", name := "VK_VERSION_1_0", number := "1.0",
    requires := [exRequireDeps] }

def exExtDeps : VkbBuildExtension :=
  { name := "VK_EXT_x", number := "1", type := "device", platform := "",
    supported := "vulkan", promotedto := "", deprecatedby := "",
    requires := [exRequireDeps] }

def exCtxDeps : VkbBuild :=
  { platforms := [], tags := [], types := [exTypeDevice, exTypeStructS],
    enums := [exEnumsE], commands := [mkCommand "vkCmd" ["VkS"]],
    features := [exFeatureDeps], extensions := [exExtDeps] }


theorem C1_dependency_order_witness :
    vkbParseFeatureDependencies exCtxDeps 10 exFeatureDeps = some ⟨[0, 1], [0]⟩ ∧
    vkbParseExtensionDependencies exCtxDeps 10 exExtDeps = some ⟨[0, 1], [0]⟩ ∧
    (DepOrdered exCtxDeps ⟨[0, 1], [0]⟩ ∧ DepOrdered exCtxDeps ⟨[0, 1], [0]⟩) :=
  ⟨by decide, by decide,
    C1_dependency_order exCtxDeps 10 exFeatureDeps exExtDeps ⟨[0, 1], [0]⟩ ⟨[0, 1], [0]⟩
      (by decide) (by decide)⟩
